import Mathlib

/-
Verification of the type-resolution and schema-derivation engine of the
go-static-analyzer repository, as a shallow embedding in Lean 4.

The embedding mirrors the Go sources:
  * `internal/types/registry.go`  — TypeKind, TypeDefinition, FieldDefinition,
    PackageInfo, TypeRegistry (RegisterPackage, SetCurrentPackage, LookupType,
    ResolveType, extractJSONTag, isBasicType, isPointerType);
  * `internal/types/schema.go`    — SchemaGenerator (GenerateSchema and the
    per-kind generators, generateExample) and VariableTracker (TrackFunction,
    trackAssignment, trackDeclaration, resolveExpressionType,
    resolveFunctionCallType, GetVariableType);
  * the package resolver file     — PackageResolver (ResolvePackages,
    buildPackageDependencies, resolvePackageDependencies, resolvePackageTypes,
    resolveType) and ResponseAnalyzer (AnalyzeHandler,
    checkJSONResponseMethod, extractStatusCode, resolveResponseType).

Two embeddings of the `TypeDefinition` object graph are used, because Go
values of this type live on a mutable heap and may be cyclic:
  * a tree embedding (`TypeDefinition` below) — faithful for the acyclic
    object graphs the generator claims range over; pure functions over it
    terminate structurally;
  * a heap embedding (`TypeNodeH` with `Ref`-indexed nodes) — used where the
    Go code mutates nodes in place (PackageResolver.resolveType) or where a
    cyclic graph is the point of the claim (SchemaGenerator on a
    self-referential type).  General recursion over the heap is expressed
    with an explicit fuel parameter; a result of `none` for every fuel value
    is the embedding of non-termination.

Go maps are embedded as association lists with first-match lookup and
replace-or-append insertion; Go slices as lists; Go `nil` pointers as
`Option.none`.
-/

namespace GoAnalyzer

/-- Lookup in an association list, first match wins (Go map read). -/
def alLookup {κ α : Type} [DecidableEq κ] : List (κ × α) → κ → Option α
  | [], _ => none
  | (k, v) :: rest, key => if k = key then some v else alLookup rest key

/-- Insertion into an association list, replacing the first binding of the key
if present, appending otherwise (Go map write). -/
def alInsert {κ α : Type} [DecidableEq κ] : List (κ × α) → κ → α → List (κ × α)
  | [], key, v => [(key, v)]
  | (k, w) :: rest, key, v =>
    if k = key then (key, v) :: rest else (k, w) :: alInsert rest key v

theorem alLookup_insert_self {κ α : Type} [DecidableEq κ]
    (l : List (κ × α)) (k : κ) (v : α) : alLookup (alInsert l k v) k = some v := by
  induction l with
  | nil => simp [alInsert, alLookup]
  | cons p rest ih =>
    obtain ⟨k', w⟩ := p
    by_cases h : k' = k
    · subst h; simp [alInsert, alLookup]
    · simp [alInsert, alLookup, h, ih]

theorem alLookup_insert_other {κ α : Type} [DecidableEq κ]
    (l : List (κ × α)) (k k' : κ) (v : α) (h : k' ≠ k) :
    alLookup (alInsert l k v) k' = alLookup l k' := by
  induction l with
  | nil =>
    simp only [alInsert, alLookup]
    rw [if_neg (fun hh => h hh.symm)]
  | cons p rest ih =>
    obtain ⟨k₀, w⟩ := p
    by_cases h0 : k₀ = k
    · subst h0
      simp only [alInsert, if_pos rfl, alLookup]
      rw [if_neg (fun hh => h hh.symm), if_neg (fun hh => h hh.symm)]
    · simp only [alInsert, if_neg h0, alLookup]
      by_cases h1 : k₀ = k'
      · simp [h1]
      · simp [h1, ih]

theorem alLookup_insert_isSome {κ α : Type} [DecidableEq κ]
    (l : List (κ × α)) (k k' : κ) (v : α) :
    (alLookup (alInsert l k v) k').isSome ↔ (k' = k ∨ (alLookup l k').isSome) := by
  by_cases h : k' = k
  · subst h; simp [alLookup_insert_self]
  · rw [alLookup_insert_other l k k' v h]
    simp [h]

/-- strings.Trim with a one-character cutset (the source only ever trims the
backtick and the double quote).  The Go string operations are embedded over
the character list of the string, which the kernel can evaluate. -/
def goTrimChar (c : Char) (s : String) : String :=
  String.mk (((s.toList.dropWhile (· = c)).reverse.dropWhile (· = c)).reverse)

/-- strings.Contains with a one-character substring (the only form the
source uses, for the dot). -/
def goContainsChar (s : String) (c : Char) : Bool := s.toList.contains c

/-- strings.HasPrefix. -/
def goHasPrefix (s p : String) : Bool := List.isPrefixOf p.toList s.toList

/-- strings.TrimPrefix. -/
def goTrimLeading (p : String) (s : String) : String :=
  if goHasPrefix s p then String.mk (s.toList.drop p.toList.length) else s

/-- strings.Split on a one-character separator (the source only splits on a
space and on a comma): the groups of characters between occurrences of the
separator. -/
def goSplitChar (c : Char) : List Char → List (List Char)
  | [] => [[]]
  | x :: xs =>
    match goSplitChar c xs with
    | [] => [[]]
    | g :: gs => if x = c then [] :: g :: gs else (x :: g) :: gs

/-- strings.Split of a string on a one-character separator. -/
def goSplit (s : String) (c : Char) : List String :=
  (goSplitChar c s.toList).map String.mk

/-- strings.SplitN(s, sep, 2) for a one-character separator, as used by
LookupType: the part before the first occurrence and the rest. -/
def goSplitN2 (s : String) (c : Char) : String × String :=
  (String.mk (s.toList.takeWhile (fun x => x ≠ c)),
   String.mk ((s.toList.dropWhile (fun x => x ≠ c)).drop 1))

/-- strconv.Atoi as used by extractStatusCode (`code, _ := strconv.Atoi(v)`):
the parsed integer, or 0 when parsing fails (the error is discarded). -/
def goAtoi (s : String) : Int :=
  let signAndDigits : Int × List Char :=
    match s.toList with
    | '-' :: rest => (-1, rest)
    | '+' :: rest => (1, rest)
    | chars => (1, chars)
  if signAndDigits.2 = [] then 0
  else if signAndDigits.2.all Char.isDigit then
    signAndDigits.1 *
      Int.ofNat (signAndDigits.2.foldl (fun acc c => acc * 10 + (c.toNat - 48)) 0)
  else 0

/-- TypeKind from registry.go: `KindStruct | KindArray | KindMap | KindBasic |
KindPointer` (there is no Unknown kind in the source). -/
inductive TypeKind where
  | kindStruct
  | kindArray
  | kindMap
  | kindBasic
  | kindPointer
deriving DecidableEq, Repr

mutual
/-- TypeDefinition from registry.go, tree embedding (acyclic object graphs).
Fields in source order: Name, Kind, Fields, ElementType, KeyType, ValueType,
Package, BasicType, IsResolved. -/
inductive TypeDefinition : Type where
  | mk (name : String) (kind : TypeKind) (fields : List FieldDefinition)
       (elementType : Option TypeDefinition) (keyType : Option TypeDefinition)
       (valueType : Option TypeDefinition) (pkg : String) (basicType : String)
       (isResolved : Bool) : TypeDefinition

/-- FieldDefinition from registry.go: Name, Type (nil until resolved),
JSONName, Omitempty, IsPointer. -/
inductive FieldDefinition : Type where
  | mk (name : String) (type : Option TypeDefinition) (jsonName : String)
       (omitempty : Bool) (isPointer : Bool) : FieldDefinition
end

def TypeDefinition.name : TypeDefinition → String
  | .mk n _ _ _ _ _ _ _ _ => n

def TypeDefinition.kind : TypeDefinition → TypeKind
  | .mk _ k _ _ _ _ _ _ _ => k

def TypeDefinition.fields : TypeDefinition → List FieldDefinition
  | .mk _ _ fs _ _ _ _ _ _ => fs

def TypeDefinition.elementType : TypeDefinition → Option TypeDefinition
  | .mk _ _ _ e _ _ _ _ _ => e

def TypeDefinition.keyType : TypeDefinition → Option TypeDefinition
  | .mk _ _ _ _ k _ _ _ _ => k

def TypeDefinition.valueType : TypeDefinition → Option TypeDefinition
  | .mk _ _ _ _ _ v _ _ _ => v

def TypeDefinition.pkg : TypeDefinition → String
  | .mk _ _ _ _ _ _ p _ _ => p

def TypeDefinition.basicType : TypeDefinition → String
  | .mk _ _ _ _ _ _ _ b _ => b

def TypeDefinition.isResolved : TypeDefinition → Bool
  | .mk _ _ _ _ _ _ _ _ r => r

def FieldDefinition.name : FieldDefinition → String
  | .mk n _ _ _ _ => n

def FieldDefinition.type : FieldDefinition → Option TypeDefinition
  | .mk _ t _ _ _ => t

def FieldDefinition.jsonName : FieldDefinition → String
  | .mk _ _ j _ _ => j

def FieldDefinition.omitempty : FieldDefinition → Bool
  | .mk _ _ _ o _ => o

def FieldDefinition.isPointer : FieldDefinition → Bool
  | .mk _ _ _ _ p => p

/-- JSONSchema from schema.go.  `JSONSchemaProperty` has exactly the same
fields (Type, Format, Description, Items, Properties, Required,
AdditionalProperties; its extra `Ref` field is never written by the code), and
the code converts between the two by copying every field, so both are embedded
as this one type and the copies as the identity. -/
inductive JSONSchema : Type where
  | mk (type : String) (format : String) (description : String)
       (items : Option JSONSchema) (properties : List (String × JSONSchema))
       (required : List String) (additionalProperties : Option JSONSchema) :
       JSONSchema

def JSONSchema.type : JSONSchema → String
  | .mk t _ _ _ _ _ _ => t

def JSONSchema.format : JSONSchema → String
  | .mk _ f _ _ _ _ _ => f

def JSONSchema.description : JSONSchema → String
  | .mk _ _ d _ _ _ _ => d

def JSONSchema.items : JSONSchema → Option JSONSchema
  | .mk _ _ _ i _ _ _ => i

def JSONSchema.properties : JSONSchema → List (String × JSONSchema)
  | .mk _ _ _ _ p _ _ => p

def JSONSchema.required : JSONSchema → List String
  | .mk _ _ _ _ _ r _ => r

def JSONSchema.additionalProperties : JSONSchema → Option JSONSchema
  | .mk _ _ _ _ _ _ a => a

/-- Memo table `SchemaGenerator.Schemas : map[string]*JSONSchema`. -/
abbrev SchemaMemo : Type := List (String × JSONSchema)

/-- Memo key `fmt.Sprintf("%s.%s", typeDef.Package, typeDef.Name)`. -/
def schemaKey (td : TypeDefinition) : String := td.pkg ++ "." ++ td.name

/-- generateBasicSchema from schema.go: maps the BasicType string to a JSON
schema type, `time.Time` additionally carrying the date-time format;
unrecognized names default to string. -/
def generateBasicSchema (td : TypeDefinition) : JSONSchema :=
  if td.basicType = "string" then .mk "string" "" "" none [] [] none
  else if td.basicType = "int" ∨ td.basicType = "int8" ∨ td.basicType = "int16"
      ∨ td.basicType = "int32" ∨ td.basicType = "int64" ∨ td.basicType = "uint"
      ∨ td.basicType = "uint8" ∨ td.basicType = "uint16" ∨ td.basicType = "uint32"
      ∨ td.basicType = "uint64" then .mk "integer" "" "" none [] [] none
  else if td.basicType = "float32" ∨ td.basicType = "float64" then
    .mk "number" "" "" none [] [] none
  else if td.basicType = "bool" then .mk "boolean" "" "" none [] [] none
  else if td.basicType = "time.Time" then .mk "string" "date-time" "" none [] [] none
  else .mk "string" "" "" none [] [] none

/-- Wire name used by generateStructSchema and generateStructExample:
`jsonName := field.Name; if field.JSONName != "" { jsonName = field.JSONName }`. -/
def wireName (f : FieldDefinition) : String :=
  if f.jsonName = "" then f.name else f.jsonName

mutual
/-- GenerateSchema from schema.go over the tree embedding.  The `*TypeDefinition`
argument is non-nil here (the nil guard is at each call site through
`Option.bind`-style handling by the callers in this file).  Returns the
generated schema (`none` embeds a nil `*JSONSchema` result) and the updated
memo table; the memo entry is stored only after the schema is fully built,
exactly as in the source. -/
def generateSchemaT : TypeDefinition → SchemaMemo → Option JSONSchema × SchemaMemo
  | td@(.mk _ kind fields elementType _ valueType _ _ _), memo =>
    match alLookup memo (schemaKey td) with
    | some s => (some s, memo)
    | none =>
      let res : Option JSONSchema × SchemaMemo :=
        match kind with
        | .kindStruct =>
          let (props, req, memo1) := genFieldsT fields [] [] memo
          (some (.mk "object" "" "" none props req none), memo1)
        | .kindArray =>
          match elementType with
          | some e =>
            let (es, memo1) := generateSchemaT e memo
            (some (.mk "array" "" "" es [] [] none), memo1)
          | none => (some (.mk "array" "" "" none [] [] none), memo)
        | .kindMap =>
          match valueType with
          | some v =>
            let (vs, memo1) := generateSchemaT v memo
            (some (.mk "object" "" "" none [] [] vs), memo1)
          | none => (some (.mk "object" "" "" none [] [] none), memo)
        | .kindBasic => (some (generateBasicSchema td), memo)
        | .kindPointer =>
          match elementType with
          | some e => generateSchemaT e memo
          | none => (none, memo)
      match res with
      | (some s, memo1) => (some s, alInsert memo1 (schemaKey td) s)
      | (none, memo1) => (none, memo1)
termination_by td memo => sizeOf td
decreasing_by all_goals (simp_wf; try omega)

/-- Field loop of generateStructSchema: skips fields with nil Type, computes
the wire name, generates the field schema (skipping the field when it is nil),
adds the property, and appends to Required unless Omitempty. -/
def genFieldsT : List FieldDefinition → List (String × JSONSchema) → List String →
    SchemaMemo → List (String × JSONSchema) × List String × SchemaMemo
  | [], props, req, memo => (props, req, memo)
  | .mk fname ftype fjson fomit fptr :: rest, props, req, memo =>
    match ftype with
    | none => genFieldsT rest props req memo
    | some t =>
      let jsonName := wireName (.mk fname (some t) fjson fomit fptr)
      let (fs, memo1) := generateSchemaT t memo
      match fs with
      | none => genFieldsT rest props req memo1
      | some s =>
        let props1 := alInsert props jsonName s
        let req1 := if fomit then req else req ++ [jsonName]
        genFieldsT rest props1 req1 memo1
termination_by fs props req memo => sizeOf fs
decreasing_by all_goals (simp_wf; try omega)
end

/-! Heap embedding.  A `Ref` is the address of a `*TypeDefinition`; the heap
maps addresses to node contents.  Pointer-valued fields of the Go structs
become `Option Ref` (nil = `none`).  This embedding represents the cyclic
object graphs that `Registry.ResolveType` builds for self-referential types
and supports the in-place mutation done by `PackageResolver.resolveType`. -/

/-- Address of a heap-allocated TypeDefinition. -/
abbrev Ref : Type := Nat

/-- FieldDefinition with a heap reference for its Type pointer. -/
structure FieldH where
  name : String
  type : Option Ref
  jsonName : String
  omitempty : Bool
  isPointer : Bool
deriving Repr

/-- TypeDefinition node contents on the heap. -/
structure TypeNodeH where
  name : String
  kind : TypeKind
  fields : List FieldH
  elementType : Option Ref
  keyType : Option Ref
  valueType : Option Ref
  pkg : String
  basicType : String
  isResolved : Bool
deriving Repr

/-- Heap of TypeDefinition objects. -/
abbrev HeapH : Type := List (Ref × TypeNodeH)

/-- Heap read (dereference). -/
def hLookup (h : HeapH) (r : Ref) : Option TypeNodeH := alLookup h r

/-- Heap write (in-place mutation of the object at `r`). -/
def hUpdate (h : HeapH) (r : Ref) (n : TypeNodeH) : HeapH := alInsert h r n

/-- PackageInfo from registry.go: a name → TypeDefinition table (references
into the heap) and an import-alias → package-path table. -/
structure PkgInfoH where
  types : List (String × Ref)
  imports : List (String × String)
deriving Repr, DecidableEq

/-- PackageInfo freshly created by RegisterPackage. -/
def emptyPkgInfo : PkgInfoH := ⟨[], []⟩

/-- TypeRegistry state shared by the collector and the package resolver:
Packages map, the CurrentPackage cursor, and the heap of TypeDefinition
objects (ambient memory in Go). -/
structure RegStateH where
  packages : List (String × PkgInfoH)
  current : String
  heap : HeapH
deriving Repr

/-- TypeRegistry.RegisterPackage: creates the PackageInfo if absent, returns
the (existing or new) entry. -/
def registerPackageH (st : RegStateH) (p : String) : PkgInfoH × RegStateH :=
  match alLookup st.packages p with
  | some info => (info, st)
  | none =>
    (emptyPkgInfo, { st with packages := alInsert st.packages p emptyPkgInfo })

/-- TypeRegistry.SetCurrentPackage: sets the cursor, then registers the
package. -/
def setCurrentPackageH (st : RegStateH) (p : String) : RegStateH :=
  (registerPackageH { st with current := p } p).2

mutual
/-- PackageResolver.resolveType (heap embedding, fuel-indexed): skips
already-resolved nodes, otherwise recursively resolves struct fields (nil
field types skipped), array/pointer element, map key and value, and finally
sets IsResolved on the node.  `none` = fuel exhausted (embeds
non-termination) or a dangling reference (impossible for heaps built by the
program). -/
def resolveTypeH : Nat → HeapH → Ref → Option HeapH
  | 0, _, _ => none
  | Nat.succ n, h, r =>
    match hLookup h r with
    | none => none
    | some node =>
      if node.isResolved then some h
      else
        let after : Option HeapH :=
          match node.kind with
          | .kindStruct => resolveFieldsH n h node.fields
          | .kindArray =>
            match node.elementType with
            | some er => resolveTypeH n h er
            | none => some h
          | .kindMap =>
            match node.keyType with
            | some kr =>
              match resolveTypeH n h kr with
              | none => none
              | some h1 =>
                match node.valueType with
                | some vr => resolveTypeH n h1 vr
                | none => some h1
            | none =>
              match node.valueType with
              | some vr => resolveTypeH n h vr
              | none => some h
          | .kindBasic => some h
          | .kindPointer =>
            match node.elementType with
            | some er => resolveTypeH n h er
            | none => some h
        match after with
        | none => none
        | some h2 =>
          match hLookup h2 r with
          | none => none
          | some node2 => some (hUpdate h2 r { node2 with isResolved := true })

/-- Field loop of PackageResolver.resolveType: fields with nil Type are
skipped (`continue`); others are resolved recursively in order. -/
def resolveFieldsH : Nat → HeapH → List FieldH → Option HeapH
  | _, h, [] => some h
  | n, h, f :: fs =>
    match f.type with
    | none => resolveFieldsH n h fs
    | some fr =>
      match resolveTypeH n h fr with
      | none => none
      | some h1 => resolveFieldsH n h1 fs
end

/-- Loop body of PackageResolver.resolvePackageTypes: resolve every type of
the package in table order. -/
def resolveTypeListH (n : Nat) : HeapH → List (String × Ref) → Option HeapH
  | h, [] => some h
  | h, (_, r) :: rest =>
    match resolveTypeH n h r with
    | none => none
    | some h1 => resolveTypeListH n h1 rest

/-- PackageResolver.resolvePackageTypes: set the current package (registering
it if absent), look its info up, and resolve each of its types. -/
def resolvePackageTypesH (n : Nat) (st : RegStateH) (p : String) : Option RegStateH :=
  let st1 := setCurrentPackageH st p
  match alLookup st1.packages p with
  | none => some st1
  | some info =>
    match resolveTypeListH n st1.heap info.types with
    | none => none
    | some h1 => some { st1 with heap := h1 }

/-- PackageResolver.buildPackageDependencies: for each package, the import
paths that contain a dot (non-standard-library imports). -/
def buildPackageDependenciesH (pkgs : List (String × PkgInfoH)) :
    List (String × List String) :=
  pkgs.map (fun pi =>
    (pi.1, (pi.2.imports.map Prod.snd).filter (fun path => goContainsChar path '.')))

mutual
/-- PackageResolver.resolvePackageDependencies: skip if already in the
`resolved` set, else resolve the dependencies first, then the package's own
types, then mark the package resolved.  The source marks a package only
after its dependencies, so a cyclic import graph recurses forever — embedded
here as fuel exhaustion. -/
def resolvePkgDepsH : Nat → List (String × List String) → RegStateH →
    List String → String → Option (RegStateH × List String)
  | 0, _, _, _, _ => none
  | Nat.succ n, deps, st, res, p =>
    if p ∈ res then some (st, res)
    else
      match resolveDepListH n deps st res ((alLookup deps p).getD []) with
      | none => none
      | some (st1, res1) =>
        match resolvePackageTypesH (Nat.succ n) st1 p with
        | none => none
        | some st2 => some (st2, res1 ++ [p])

/-- Dependency loop of resolvePackageDependencies. -/
def resolveDepListH : Nat → List (String × List String) → RegStateH →
    List String → List String → Option (RegStateH × List String)
  | _, _, st, res, [] => some (st, res)
  | n, deps, st, res, d :: ds =>
    match resolvePkgDepsH n deps st res d with
    | none => none
    | some (st1, res1) => resolveDepListH n deps st1 res1 ds
end

/-- Top-level loop of PackageResolver.ResolvePackages over the registered
packages (Go iterates the live map in unspecified order; the embedding
iterates the entries present when the loop starts, in registration order —
packages registered during the loop have no types, so this is faithful for
every property below). -/
def resolveRootsH (n : Nat) (deps : List (String × List String)) :
    RegStateH → List String → List String → Option (RegStateH × List String)
  | st, res, [] => some (st, res)
  | st, res, p :: ps =>
    match resolvePkgDepsH n deps st res p with
    | none => none
    | some (st1, res1) => resolveRootsH n deps st1 res1 ps

/-- PackageResolver.ResolvePackages: build the dependency graph once, then
resolve every registered package in dependency order. -/
def resolvePackagesH (n : Nat) (st : RegStateH) : Option RegStateH :=
  let deps := buildPackageDependenciesH st.packages
  match resolveRootsH n deps st [] (st.packages.map Prod.fst) with
  | none => none
  | some (st1, _) => some st1

/-! Go AST embedding: the expression, statement and declaration shapes that
registry.go, the variable tracker and the response analyzer inspect.
`otherExpr` stands for every other `ast.Expr` shape (they all fall into the
default branches of the source switches). -/

/-- go/token literal kinds appearing on ast.BasicLit. -/
inductive LitKind where
  | lstring
  | lint
  | lfloat
  | lchar
  | limag
deriving DecidableEq, Repr

/-- Unary operator: the code only distinguishes token.AND (address-of). -/
inductive UnaryOp where
  | opAnd
  | opOther
deriving DecidableEq, Repr

mutual
/-- ast.Expr shapes inspected by the source.  `compositeLit` keeps only the
Type (the code reads nothing else from an ast.CompositeLit). -/
inductive Expr : Type where
  | ident (name : String) : Expr
  | selector (x : Expr) (sel : String) : Expr
  | call (fn : Expr) (args : List Expr) : Expr
  | unary (op : UnaryOp) (x : Expr) : Expr
  | star (x : Expr) : Expr
  | arrayType (elt : Expr) : Expr
  | mapType (key : Expr) (val : Expr) : Expr
  | compositeLit (ty : Expr) : Expr
  | basicLit (kind : LitKind) (value : String) : Expr
  | structType (fieldList : List AstField) : Expr
  | otherExpr : Expr

/-- ast.Field: names, type expression and the raw tag literal (nil when the
field has no tag). -/
inductive AstField : Type where
  | mk (names : List String) (ty : Expr) (tag : Option String) : AstField
end

def AstField.names : AstField → List String
  | .mk n _ _ => n

def AstField.ty : AstField → Expr
  | .mk _ t _ => t

def AstField.tag : AstField → Option String
  | .mk _ _ t => t

/-- TypeRegistry.extractJSONTag from registry.go, acting on the field's raw
tag literal: trims backticks, finds the first space-separated segment starting
with `json:`, strips the quotes, splits on commas; a `-` name yields an empty
wire name with the omitempty flag set. -/
def extractJSONTag (tag : Option String) : String × Bool :=
  match tag with
  | none => ("", false)
  | some tagValue0 =>
    let tagValue := goTrimChar (Char.ofNat 96) tagValue0
    let jsonTag :=
      match (goSplit tagValue ' ').find? (fun t => goHasPrefix t "json:") with
      | some t => goTrimChar '"' (goTrimLeading "json:" t)
      | none => ""
    if jsonTag = "" then ("", false)
    else
      let parts := goSplit jsonTag ','
      let jsonName := parts.headD ""
      let omitempty := parts.tail.any (fun part => part = "omitempty")
      if jsonName = "-" then ("", true) else (jsonName, omitempty)

/-- isBasicType from registry.go. -/
def isBasicTypeGo (name : String) : Bool :=
  (["bool", "int", "int8", "int16", "int32", "int64", "uint", "uint8",
    "uint16", "uint32", "uint64", "uintptr", "float32", "float64",
    "complex64", "complex128", "string", "byte", "rune", "error"] :
    List String).contains name

/-- isPointerType from registry.go: true exactly for a *ast.StarExpr. -/
def isPointerTypeE : Expr → Bool
  | .star _ => true
  | _ => false

/-- isPointerType applied to a possibly-nil expression (a nil ast.Expr fails
the type assertion, giving false). -/
def isPointerTypeO : Option Expr → Bool
  | some e => isPointerTypeE e
  | none => false

/-- PackageInfo over the tree embedding: used by the components that only
read TypeDefinitions (variable tracker, response analyzer, schema generator). -/
structure PkgInfoT where
  types : List (String × TypeDefinition)
  imports : List (String × String)

/-- TypeRegistry over the tree embedding (packages map and CurrentPackage
cursor). -/
structure RegistryT where
  packages : List (String × PkgInfoT)
  current : String

/-- TypeRegistry.RegisterPackage over the tree embedding. -/
def registerPackageT (st : RegistryT) (p : String) : PkgInfoT × RegistryT :=
  match alLookup st.packages p with
  | some info => (info, st)
  | none => (⟨[], []⟩, { st with packages := alInsert st.packages p ⟨[], []⟩ })

/-- TypeRegistry.LookupType: an alias-qualified name is split at the first
dot (strings.SplitN with n = 2), the alias resolved through the current
package's import table; an unqualified name is looked up in the current
package.  Absence is a valid result (`none`); note both branches call
RegisterPackage on the current package, which may mutate the registry. -/
def lookupTypeT (st : RegistryT) (name : String) : Option TypeDefinition × RegistryT :=
  if goContainsChar name '.' then
    let pkgAlias := (goSplitN2 name '.').1
    let typeName := (goSplitN2 name '.').2
    let (pkg, st1) := registerPackageT st st.current
    match alLookup pkg.imports pkgAlias with
    | some pkgPath =>
      match alLookup st1.packages pkgPath with
      | some importedPkg => (alLookup importedPkg.types typeName, st1)
      | none => (none, st1)
    | none => (none, st1)
  else
    let (pkg, st1) := registerPackageT st st.current
    (alLookup pkg.types name, st1)

mutual
/-- TypeRegistry.ResolveType from registry.go over the tree embedding:
resolves a type expression to a TypeDefinition (nil = `none`), threading the
registry because LookupType may register the current package. -/
def resolveTypeR : Expr → RegistryT → Option TypeDefinition × RegistryT
  | .ident n, st =>
    if isBasicTypeGo n then
      (some (.mk n .kindBasic [] none none none st.current n true), st)
    else lookupTypeT st n
  | .selector x sel, st =>
    match x with
    | .ident xn => lookupTypeT st (xn ++ "." ++ sel)
    | _ => (none, st)
  | .arrayType elt, st =>
    match resolveTypeR elt st with
    | (some e, st1) =>
      (some (.mk ("[]" ++ e.name) .kindArray [] (some e) none none
        st1.current "" e.isResolved), st1)
    | (none, st1) => (none, st1)
  | .mapType k v, st =>
    match resolveTypeR k st with
    | (kt?, st1) =>
      match resolveTypeR v st1 with
      | (vt?, st2) =>
        match kt?, vt? with
        | some kt, some vt =>
          (some (.mk ("map[" ++ kt.name ++ "]" ++ vt.name) .kindMap []
            none (some kt) (some vt) st2.current ""
            (kt.isResolved && vt.isResolved)), st2)
        | _, _ => (none, st2)
  | .star x, st =>
    match resolveTypeR x st with
    | (some e, st1) =>
      (some (.mk ("*" ++ e.name) .kindPointer [] (some e) none none
        st1.current "" e.isResolved), st1)
    | (none, st1) => (none, st1)
  | .structType fieldAsts, st =>
    let (flds, ok, st1) := resolveStructFieldsR fieldAsts st
    (some (.mk "anonymous" .kindStruct flds none none none st1.current "" ok), st1)
  | .call _ _, st => (none, st)
  | .unary _ _, st => (none, st)
  | .compositeLit _, st => (none, st)
  | .basicLit _ _, st => (none, st)
  | .otherExpr, st => (none, st)

/-- Field loop of the anonymous-struct case of ResolveType: a field whose
type fails to resolve clears the IsResolved flag and is skipped; otherwise
one FieldDefinition per declared name, with the JSON tag extracted. -/
def resolveStructFieldsR : List AstField → RegistryT →
    List FieldDefinition × Bool × RegistryT
  | [], st => ([], true, st)
  | .mk names ty tag :: rest, st =>
    match resolveTypeR ty st with
    | (none, st1) =>
      let (flds, _, st2) := resolveStructFieldsR rest st1
      (flds, false, st2)
    | (some fieldType, st1) =>
      let tagPair := extractJSONTag tag
      let these := names.map (fun nm =>
        FieldDefinition.mk nm (some fieldType) tagPair.1 tagPair.2
          (isPointerTypeE ty))
      let (flds, ok, st2) := resolveStructFieldsR rest st1
      (these ++ flds, ok, st2)
end

/-! Variable tracker (schema.go) and response analyzer embeddings. -/

/-- VariableInfo from schema.go (token.Position dropped: it carries no
behavior).  The Type pointer is always non-nil when a VariableInfo is
created, so it is not an Option here. -/
structure VariableInfo where
  name : String
  type : TypeDefinition
  isPointer : Bool

/-- VariableTracker state: the registry it shares, the Variables scope table
and the FunctionMap of registered function return types. -/
structure TrackerSt where
  reg : RegistryT
  vars : List (String × VariableInfo)
  functionMap : List (String × TypeDefinition)

/-- Placeholder TypeDefinition `any` returned by resolveFunctionCallType when
the callable is unknown or a method call on a tracked variable. -/
def anyTypeDef : TypeDefinition :=
  .mk "any" .kindBasic [] none none none "" "any" true

/-- VariableTracker.resolveFunctionCallType: a direct call looks up the
FunctionMap; a selector call on a tracked variable is conservatively `any`;
a qualified function name is looked up in the FunctionMap; every other case
returns the `any` placeholder (never nil). -/
def resolveFunctionCallType (ts : TrackerSt) (fn : Expr) : TypeDefinition :=
  match fn with
  | .ident fname =>
    match alLookup ts.functionMap fname with
    | some returnType => returnType
    | none => anyTypeDef
  | .selector x selName =>
    match x with
    | .ident xn =>
      match alLookup ts.vars xn with
      | some _ => anyTypeDef
      | none =>
        match alLookup ts.functionMap (xn ++ "." ++ selName) with
        | some returnType => returnType
        | none => anyTypeDef
    | _ => anyTypeDef
  | _ => anyTypeDef

/-- VariableTracker.resolveExpressionType: identifier → scope then registry;
selector → qualified type name then struct-field scan; call →
resolveFunctionCallType; address-of → pointer wrap; composite literal →
Registry.ResolveType of its type; literal → on-demand Basic node; every
other shape → nil.  The registry is threaded because LookupType/ResolveType
may register the current package. -/
def resolveExpressionType (ts : TrackerSt) : Expr → Option TypeDefinition × RegistryT
  | .ident n =>
    match alLookup ts.vars n with
    | some varInfo => (some varInfo.type, ts.reg)
    | none => lookupTypeT ts.reg n
  | .selector x sel =>
    match x with
    | .ident xn =>
      match lookupTypeT ts.reg (xn ++ "." ++ sel) with
      | (some typeDef, reg1) => (some typeDef, reg1)
      | (none, reg1) =>
        match alLookup ts.vars xn with
        | some varInfo =>
          if varInfo.type.kind = .kindStruct then
            match varInfo.type.fields.find? (fun f => f.name = sel) with
            | some f => (f.type, reg1)
            | none => (none, reg1)
          else (none, reg1)
        | none => (none, reg1)
    | _ => (none, ts.reg)
  | .call fn _ => (some (resolveFunctionCallType ts fn), ts.reg)
  | .unary op x =>
    if op = .opAnd then
      match resolveExpressionType ts x with
      | (some innerType, reg1) =>
        (some (.mk ("*" ++ innerType.name) .kindPointer [] (some innerType)
          none none innerType.pkg "" innerType.isResolved), reg1)
      | (none, reg1) => (none, reg1)
    else (none, ts.reg)
  | .compositeLit ty => resolveTypeR ty ts.reg
  | .basicLit kind _ =>
    match kind with
    | .lstring => (some (.mk "string" .kindBasic [] none none none "" "string" true), ts.reg)
    | .lint => (some (.mk "int" .kindBasic [] none none none "" "int" true), ts.reg)
    | .lfloat => (some (.mk "float64" .kindBasic [] none none none "" "float64" true), ts.reg)
    | .lchar => (some (.mk "rune" .kindBasic [] none none none "" "rune" true), ts.reg)
    | .limag => (none, ts.reg)
  | .star _ => (none, ts.reg)
  | .arrayType _ => (none, ts.reg)
  | .mapType _ _ => (none, ts.reg)
  | .structType _ => (none, ts.reg)
  | .otherExpr => (none, ts.reg)

/-- go/token assignment tokens distinguished by trackAssignment. -/
inductive AssignTok where
  | tokDefine
  | tokAssign
  | tokOtherAssign
deriving DecidableEq, Repr

/-- ast.AssignStmt. -/
structure AssignStmt where
  lhs : List Expr
  tok : AssignTok
  rhs : List Expr

/-- Loop body of VariableTracker.trackAssignment over the left-hand sides,
with the running index `i`.  When `i` is within the right-hand list the
right-hand expression is resolved; otherwise, when the right-hand list has
exactly one element (multiple assignment from one call), that element is
resolved.  A non-nil result then evaluates `isPointerType(stmt.Rhs[i])`
unconditionally — when `i` is out of range this Go index expression panics,
embedded as `none`. -/
def trackAssignLoop (rhs : List Expr) : TrackerSt → List Expr → Nat → Option TrackerSt
  | ts, [], _ => some ts
  | ts, l :: ls, i =>
    match l with
    | .ident nm =>
      let step : Option TypeDefinition × RegistryT :=
        match rhs.get? i with
        | some e => resolveExpressionType ts e
        | none =>
          match rhs with
          | [e0] => resolveExpressionType ts e0
          | _ => (none, ts.reg)
      let ts1 : TrackerSt := { ts with reg := step.2 }
      match step.1 with
      | none => trackAssignLoop rhs ts1 ls (i + 1)
      | some rhsType =>
        match rhs.get? i with
        | none => none
        | some ei =>
          let varInfo : VariableInfo := ⟨nm, rhsType, isPointerTypeE ei⟩
          trackAssignLoop rhs { ts1 with vars := alInsert ts1.vars nm varInfo }
            ls (i + 1)
    | _ => trackAssignLoop rhs ts ls (i + 1)

/-- VariableTracker.trackAssignment: only `:=` and `=` assignments are
tracked; `none` embeds a Go runtime panic. -/
def trackAssignment (ts : TrackerSt) (stmt : AssignStmt) : Option TrackerSt :=
  if stmt.tok ≠ .tokDefine ∧ stmt.tok ≠ .tokAssign then some ts
  else trackAssignLoop stmt.rhs ts stmt.lhs 0

/-- go/token declaration tokens distinguished by trackDeclaration. -/
inductive DeclTok where
  | tokVar
  | tokOtherDecl
deriving DecidableEq, Repr

/-- ast.ValueSpec (inside a GenDecl) or another spec shape. -/
inductive SpecM where
  | valueSpec (names : List String) (ty : Option Expr) (values : List Expr)
  | otherSpec

/-- ast.DeclStmt wrapping a GenDecl. -/
structure DeclStmtM where
  tok : DeclTok
  specs : List SpecM

/-- Name loop of trackDeclaration: each declared name receives the resolved
type; IsPointer comes from the (possibly nil) declared type expression. -/
def trackDeclNames (varType : TypeDefinition) (ty : Option Expr) :
    List (String × VariableInfo) → List String → List (String × VariableInfo)
  | vars, [] => vars
  | vars, nm :: rest =>
    trackDeclNames varType ty
      (alInsert vars nm ⟨nm, varType, isPointerTypeO ty⟩) rest

/-- Spec loop of VariableTracker.trackDeclaration: a typed spec resolves the
declared type, an initialized untyped spec infers from the first value, and a
nil result skips the spec (`continue`). -/
def trackDeclSpecs : TrackerSt → List SpecM → TrackerSt
  | ts, [] => ts
  | ts, .otherSpec :: rest => trackDeclSpecs ts rest
  | ts, .valueSpec names ty values :: rest =>
    let step : Option TypeDefinition × RegistryT :=
      match ty with
      | some t => resolveTypeR t ts.reg
      | none =>
        match values with
        | v0 :: _ => resolveExpressionType ts v0
        | [] => (none, ts.reg)
    let ts1 : TrackerSt := { ts with reg := step.2 }
    match step.1 with
    | none => trackDeclSpecs ts1 rest
    | some varType =>
      trackDeclSpecs { ts1 with vars := trackDeclNames varType ty ts1.vars names }
        rest

/-- VariableTracker.trackDeclaration: only `var` declarations are tracked. -/
def trackDeclaration (ts : TrackerSt) (d : DeclStmtM) : TrackerSt :=
  if d.tok ≠ .tokVar then ts else trackDeclSpecs ts d.specs

/-- Statement shapes relevant to the tracker and the response analyzer.
`ast.Inspect` visits nodes in lexical (depth-first, parent-first) order; the
function body is embedded as the lexically ordered list of the statements the
walk encounters. -/
inductive Stmt where
  | assign (s : AssignStmt)
  | declStmt (d : DeclStmtM)
  | exprStmt (e : Expr)
  | otherStmt

/-- ast.FuncDecl: name, parameter list (nil body = `none`). -/
structure FuncDeclM where
  name : String
  params : List (List String × Expr)
  body : Option (List Stmt)

/-- Parameter loop of TrackFunction: parameters whose type fails to resolve
are skipped; others seed the scope with their declared type. -/
def trackParams : TrackerSt → List (List String × Expr) → TrackerSt
  | ts, [] => ts
  | ts, (names, tyExpr) :: rest =>
    let step := resolveTypeR tyExpr ts.reg
    let ts1 : TrackerSt := { ts with reg := step.2 }
    match step.1 with
    | none => trackParams ts1 rest
    | some paramType =>
      trackParams
        { ts1 with vars := trackDeclNames paramType (some tyExpr) ts1.vars names }
        rest

/-- Statement walk of TrackFunction: assignment and declaration statements
are tracked, everything else ignored; a panic (`none`) aborts the walk. -/
def trackStmts : TrackerSt → List Stmt → Option TrackerSt
  | ts, [] => some ts
  | ts, .assign s :: rest =>
    match trackAssignment ts s with
    | none => none
    | some ts1 => trackStmts ts1 rest
  | ts, .declStmt d :: rest => trackStmts (trackDeclaration ts d) rest
  | ts, .exprStmt _ :: rest => trackStmts ts rest
  | ts, .otherStmt :: rest => trackStmts ts rest

/-- VariableTracker.TrackFunction: clears the scope, seeds the parameters,
then walks the body in lexical order.  `none` embeds a Go runtime panic
(the Go function itself always returns a nil error). -/
def trackFunction (ts : TrackerSt) (fd : FuncDeclM) : Option TrackerSt :=
  let ts0 : TrackerSt := { ts with vars := [] }
  let ts1 := trackParams ts0 fd.params
  match fd.body with
  | none => some ts1
  | some stmts => trackStmts ts1 stmts

/-- VariableTracker.GetVariableType. -/
def getVariableType (ts : TrackerSt) (name : String) : Option TypeDefinition :=
  match alLookup ts.vars name with
  | some varInfo => some varInfo.type
  | none => none

/-! ResponseAnalyzer embedding. -/

/-- ResponseInfo (the Position string is dropped: no behavior depends on it). -/
structure ResponseInfoM where
  statusCode : Int
  type : TypeDefinition

/-- ResponseAnalyzer.extractStatusCode: an integer literal is parsed with
strconv.Atoi (0 on error); an `http.StatusXXX` selector maps through the
fixed table; everything else defaults to 200 (http.StatusOK). -/
def extractStatusCode : Expr → Int
  | .basicLit .lint v => goAtoi v
  | .selector (.ident "http") sel =>
    if sel = "StatusOK" then 200
    else if sel = "StatusCreated" then 201
    else if sel = "StatusAccepted" then 202
    else if sel = "StatusNoContent" then 204
    else if sel = "StatusBadRequest" then 400
    else if sel = "StatusUnauthorized" then 401
    else if sel = "StatusForbidden" then 403
    else if sel = "StatusNotFound" then 404
    else if sel = "StatusInternalServerError" then 500
    else 200
  | _ => 200

/-- ResponseAnalyzer.resolveResponseType: identifier → tracked variable type;
selector → struct-field scan on a tracked variable; call →
resolveFunctionCallType; composite literal → Registry.ResolveType;
address-of → recurse on the operand.  The nil response variable (when the
call has fewer than two arguments) resolves to nil. -/
def resolveResponseType (ts : TrackerSt) : Option Expr → Option TypeDefinition × RegistryT
  | none => (none, ts.reg)
  | some e =>
    match e with
    | .ident n => (getVariableType ts n, ts.reg)
    | .selector x sel =>
      match x with
      | .ident xn =>
        match getVariableType ts xn with
        | some varType =>
          if varType.kind = .kindStruct then
            match varType.fields.find? (fun f => f.name = sel) with
            | some f => (f.type, ts.reg)
            | none => (none, ts.reg)
          else (none, ts.reg)
        | none => (none, ts.reg)
      | _ => (none, ts.reg)
    | .call fn _ => (some (resolveFunctionCallType ts fn), ts.reg)
    | .compositeLit ty => resolveTypeR ty ts.reg
    | .unary op x =>
      if op = .opAnd then resolveResponseType ts (some x) else (none, ts.reg)
    | _ => (none, ts.reg)

/-- ResponseAnalyzer.checkJSONResponseMethod: the receiver must be a common
context name and the method a JSON response method; with at least two
arguments the status code comes from the first and the response variable is
the second, otherwise the response variable stays nil and the unresolved
response is dropped. -/
def checkJSONResponseMethod (ts : TrackerSt) (objName methodName : String)
    (args : List Expr) : Option ResponseInfoM × RegistryT :=
  if ¬ ((["c", "ctx", "context", "ec"] : List String).contains objName) then
    (none, ts.reg)
  else if ¬ ((["JSON", "JSONPretty", "JSONBlob"] : List String).contains methodName) then
    (none, ts.reg)
  else
    let statusAndVar : Int × Option Expr :=
      if args.length ≥ 2 then
        (extractStatusCode (args.headD .otherExpr), args.get? 1)
      else (200, none)
    match resolveResponseType ts statusAndVar.2 with
    | (none, reg1) => (none, reg1)
    | (some responseType, reg1) =>
      (some ⟨statusAndVar.1, responseType⟩, reg1)

mutual
/-- ast.Inspect call-collection: every *ast.CallExpr in the subtree, parent
before children (the analyzer inspects each call node it encounters). -/
def collectCallsE : Expr → List Expr
  | .call fn args => .call fn args :: (collectCallsE fn ++ collectCallsL args)
  | .selector x _ => collectCallsE x
  | .unary _ x => collectCallsE x
  | .star x => collectCallsE x
  | .arrayType elt => collectCallsE elt
  | .mapType k v => collectCallsE k ++ collectCallsE v
  | .compositeLit ty => collectCallsE ty
  | .structType _ => []
  | .ident _ => []
  | .basicLit _ _ => []
  | .otherExpr => []

/-- Call collection over an expression list. -/
def collectCallsL : List Expr → List Expr
  | [] => []
  | e :: es => collectCallsE e ++ collectCallsL es
end

/-- Call collection over one statement. -/
def collectCallsS : Stmt → List Expr
  | .assign s => collectCallsL s.lhs ++ collectCallsL s.rhs
  | .declStmt d =>
    (d.specs.map (fun sp =>
      match sp with
      | .valueSpec _ ty values =>
        (match ty with | some t => collectCallsE t | none => []) ++
          collectCallsL values
      | .otherSpec => [])).flatten
  | .exprStmt e => collectCallsE e
  | .otherStmt => []

/-- Loop of AnalyzeHandler over the collected call expressions: calls whose
function is a selector on a plain identifier go through
checkJSONResponseMethod; found responses are appended in order. -/
def analyzeCalls (ts : TrackerSt) : List Expr → List ResponseInfoM →
    List ResponseInfoM × RegistryT
  | [], acc => (acc, ts.reg)
  | c :: cs, acc =>
    match c with
    | .call (.selector (.ident objName) selName) args =>
      match checkJSONResponseMethod ts objName selName args with
      | (none, reg1) => analyzeCalls { ts with reg := reg1 } cs acc
      | (some info, reg1) => analyzeCalls { ts with reg := reg1 } cs (acc ++ [info])
    | _ => analyzeCalls ts cs acc

/-- ResponseAnalyzer.AnalyzeHandler: clears the responses, walks the body
collecting call expressions in lexical order, and checks each for a JSON
response method.  The tracker scope is whatever TrackFunction left behind. -/
def analyzeHandler (ts : TrackerSt) (fd : FuncDeclM) : List ResponseInfoM × RegistryT :=
  match fd.body with
  | none => ([], ts.reg)
  | some stmts => analyzeCalls ts ((stmts.map collectCallsS).flatten) []

/-! Example generation (schema.go generateExample and friends). -/

/-- Go `interface{}` values produced by generateExample: JSON-like trees.
The only float the code produces is the literal 0.0, embedded as `jfloat 0`. -/
inductive JSONValue : Type where
  | jstr (s : String) : JSONValue
  | jint (n : Int) : JSONValue
  | jfloat (n : Int) : JSONValue
  | jbool (b : Bool) : JSONValue
  | jarr (elems : List JSONValue) : JSONValue
  | jobj (entries : List (String × JSONValue)) : JSONValue

/-- generateBasicExample from schema.go. -/
def generateBasicExample (td : TypeDefinition) : JSONValue :=
  if td.basicType = "string" then .jstr "string"
  else if td.basicType = "int" ∨ td.basicType = "int8" ∨ td.basicType = "int16"
      ∨ td.basicType = "int32" ∨ td.basicType = "int64" ∨ td.basicType = "uint"
      ∨ td.basicType = "uint8" ∨ td.basicType = "uint16" ∨ td.basicType = "uint32"
      ∨ td.basicType = "uint64" then .jint 0
  else if td.basicType = "float32" ∨ td.basicType = "float64" then .jfloat 0
  else if td.basicType = "bool" then .jbool false
  else if td.basicType = "time.Time" then .jstr "2025-04-23T01:27:02Z"
  else .jstr "unknown"

mutual
/-- generateExample from schema.go over the tree embedding (it is pure: no
memo table).  `none` embeds a nil interface{} result. -/
def generateExample : TypeDefinition → Option JSONValue
  | td@(.mk _ kind fields elementType _ valueType _ _ _) =>
    match kind with
    | .kindStruct => some (.jobj (genExampleFields fields []))
    | .kindArray =>
      match elementType with
      | some e =>
        match generateExample e with
        | some elemExample => some (.jarr [elemExample])
        | none => some (.jarr [])
      | none => some (.jarr [])
    | .kindMap =>
      match valueType with
      | some v =>
        match generateExample v with
        | some valueExample => some (.jobj [("key", valueExample)])
        | none => some (.jobj [])
      | none => some (.jobj [])
    | .kindBasic => some (generateBasicExample td)
    | .kindPointer =>
      match elementType with
      | some e => generateExample e
      | none => none
termination_by td => sizeOf td
decreasing_by all_goals (simp_wf; try omega)

/-- Field loop of generateStructExample: fields with nil Type are skipped,
omitempty fields are skipped, nil field examples are skipped. -/
def genExampleFields : List FieldDefinition → List (String × JSONValue) →
    List (String × JSONValue)
  | [], acc => acc
  | .mk fname ftype fjson fomit fptr :: rest, acc =>
    match ftype with
    | none => genExampleFields rest acc
    | some t =>
      let jsonName := wireName (.mk fname (some t) fjson fomit fptr)
      if fomit then genExampleFields rest acc
      else
        match generateExample t with
        | some fieldExample =>
          genExampleFields rest (alInsert acc jsonName fieldExample)
        | none => genExampleFields rest acc
termination_by fs acc => sizeOf fs
decreasing_by all_goals (simp_wf; try omega)
end

/-! SchemaGenerator.GenerateSchema over the heap embedding, fuel-indexed.
This is the same function as `generateSchemaT`, but run on the mutable object
graph `Registry.ResolveType` actually builds, which is cyclic for a
self-referential type: the memo entry is stored only after the schema is
fully built, so the memo cannot break a cycle.  `none` = fuel exhausted at
every depth, the embedding of non-termination (or a dangling reference,
which heaps built by the program never contain). -/

/-- Memo key over the heap embedding. -/
def schemaKeyH (node : TypeNodeH) : String := node.pkg ++ "." ++ node.name

/-- generateBasicSchema over a heap node (same switch as the tree version). -/
def generateBasicSchemaH (node : TypeNodeH) : JSONSchema :=
  if node.basicType = "string" then .mk "string" "" "" none [] [] none
  else if node.basicType = "int" ∨ node.basicType = "int8" ∨ node.basicType = "int16"
      ∨ node.basicType = "int32" ∨ node.basicType = "int64" ∨ node.basicType = "uint"
      ∨ node.basicType = "uint8" ∨ node.basicType = "uint16" ∨ node.basicType = "uint32"
      ∨ node.basicType = "uint64" then .mk "integer" "" "" none [] [] none
  else if node.basicType = "float32" ∨ node.basicType = "float64" then
    .mk "number" "" "" none [] [] none
  else if node.basicType = "bool" then .mk "boolean" "" "" none [] [] none
  else if node.basicType = "time.Time" then .mk "string" "date-time" "" none [] [] none
  else .mk "string" "" "" none [] [] none

mutual
/-- GenerateSchema over the heap embedding: the argument is the (possibly
nil) `*TypeDefinition`; a nil argument returns a nil schema immediately. -/
def generateSchemaH : Nat → HeapH → SchemaMemo → Option Ref →
    Option (Option JSONSchema × SchemaMemo)
  | 0, _, _, _ => none
  | Nat.succ _, _, memo, none => some (none, memo)
  | Nat.succ n, h, memo, some r =>
    match hLookup h r with
    | none => none
    | some node =>
      match alLookup memo (schemaKeyH node) with
      | some s => some (some s, memo)
      | none =>
        let res : Option (Option JSONSchema × SchemaMemo) :=
          match node.kind with
          | .kindStruct =>
            match genFieldsH n h node.fields [] [] memo with
            | none => none
            | some (props, req, memo1) =>
              some (some (.mk "object" "" "" none props req none), memo1)
          | .kindArray =>
            match node.elementType with
            | some er =>
              match generateSchemaH n h memo (some er) with
              | none => none
              | some (es, memo1) =>
                some (some (.mk "array" "" "" es [] [] none), memo1)
            | none => some (some (.mk "array" "" "" none [] [] none), memo)
          | .kindMap =>
            match node.valueType with
            | some vr =>
              match generateSchemaH n h memo (some vr) with
              | none => none
              | some (vs, memo1) =>
                some (some (.mk "object" "" "" none [] [] vs), memo1)
            | none => some (some (.mk "object" "" "" none [] [] none), memo)
          | .kindBasic => some (some (generateBasicSchemaH node), memo)
          | .kindPointer => generateSchemaH n h memo node.elementType
        match res with
        | none => none
        | some (some s, memo1) => some (some s, alInsert memo1 (schemaKeyH node) s)
        | some (none, memo1) => some (none, memo1)

/-- Field loop of generateStructSchema over the heap embedding. -/
def genFieldsH : Nat → HeapH → List FieldH → List (String × JSONSchema) →
    List String → SchemaMemo →
    Option (List (String × JSONSchema) × List String × SchemaMemo)
  | _, _, [], props, req, memo => some (props, req, memo)
  | n, h, f :: rest, props, req, memo =>
    match f.type with
    | none => genFieldsH n h rest props req memo
    | some tr =>
      let jsonName := if f.jsonName = "" then f.name else f.jsonName
      match generateSchemaH n h memo (some tr) with
      | none => none
      | some (none, memo1) => genFieldsH n h rest props req memo1
      | some (some s, memo1) =>
        let props1 := alInsert props jsonName s
        let req1 := if f.omitempty then req else req ++ [jsonName]
        genFieldsH n h rest props1 req1 memo1
end

/-! Theorems.  The concrete heaps below are exactly what the program builds
for self- and mutually-referential struct declarations: the collector
registers the struct's TypeDefinition before resolving its field types, so
`Registry.ResolveType`'s lookup returns the very node under construction and
the field's Type pointer closes the cycle. -/

/-- Heap for `type A struct { Next A }` (the node the resolver builds: the
field's Type pointer is the node itself). -/
def heapSelfRef : HeapH :=
  [(0, { name := "A", kind := .kindStruct,
         fields := [{ name := "Next", type := some 0, jsonName := "",
                      omitempty := false, isPointer := false }],
         elementType := none, keyType := none, valueType := none,
         pkg := "p", basicType := "", isResolved := true })]

/-- Heap for the mutually referential pair `type A struct { B B }`,
`type B struct { A A }`. -/
def heapMutualRef : HeapH :=
  [(0, { name := "A", kind := .kindStruct,
         fields := [{ name := "B", type := some 1, jsonName := "",
                      omitempty := false, isPointer := false }],
         elementType := none, keyType := none, valueType := none,
         pkg := "p", basicType := "", isResolved := true }),
   (1, { name := "B", kind := .kindStruct,
         fields := [{ name := "A", type := some 0, jsonName := "",
                      omitempty := false, isPointer := false }],
         elementType := none, keyType := none, valueType := none,
         pkg := "p", basicType := "", isResolved := true })]

/-- Claim C1: FALSIFIED by the source — `SchemaGenerator.GenerateSchema`
stores its memo entry only after the schema is fully built (schema.go:
the `g.Schemas[schemaKey] = schema` write follows the recursive switch), so
on a self-referential or mutually referential record type the recursion
never reaches a memoized entry and never terminates (Go: stack overflow).
The theorem shows fuel exhaustion at every fuel value, on an empty memo, for
both the direct cycle `A → A` and the mutual cycle `A → B → A`. -/
theorem c1_generateSchema_diverges_on_cyclic_record (n : Nat) :
    generateSchemaH n heapSelfRef [] (some 0) = none ∧
    generateSchemaH n heapMutualRef [] (some 0) = none ∧
    generateSchemaH n heapMutualRef [] (some 1) = none := by
  induction n with
  | zero => refine ⟨?_, ?_, ?_⟩ <;> simp [generateSchemaH]
  | succ n ih =>
    obtain ⟨ih1, ih2, ih3⟩ := ih
    simp only [heapSelfRef] at ih1
    simp only [heapMutualRef] at ih2 ih3
    refine ⟨?_, ?_, ?_⟩
    · simp [generateSchemaH, genFieldsH, heapSelfRef, hLookup, alLookup,
        schemaKeyH, ih1]
    · simp [generateSchemaH, genFieldsH, heapMutualRef, hLookup, alLookup,
        schemaKeyH, ih3]
    · simp [generateSchemaH, genFieldsH, heapMutualRef, hLookup, alLookup,
        schemaKeyH, ih2]

/-! Claim C3: the tracker on `a, b := f()`. -/

/-- Tracker over an empty registry, empty scope, empty function map. -/
def emptyTracker : TrackerSt :=
  { reg := { packages := [], current := "" }, vars := [], functionMap := [] }

/-- Function body consisting of the single statement `a, b := f()`. -/
def fnMultiAssign : FuncDeclM :=
  { name := "handler", params := [],
    body := some [.assign { lhs := [.ident "a", .ident "b"],
                            tok := .tokDefine,
                            rhs := [.call (.ident "f") []] }] }

/-- Claim C3: FALSIFIED by the source — on `a, b := f()` trackAssignment
resolves the single right-hand call for the second variable (the
`len(stmt.Rhs) == 1` branch, which yields the non-nil `any` placeholder) and
then unconditionally evaluates `isPointerType(stmt.Rhs[i])` with `i = 1`,
indexing past the end of the one-element right-hand list: a Go runtime panic
(index out of range), embedded as `none`. -/
theorem c3_trackFunction_panics_on_multi_assign :
    trackFunction emptyTracker fnMultiAssign = none := by
  simp [trackFunction, emptyTracker, fnMultiAssign, trackParams, trackStmts,
    trackAssignment, trackAssignLoop, resolveExpressionType,
    resolveFunctionCallType, alLookup, alInsert, anyTypeDef]

/-! Claim C9: RegisterPackage / SetCurrentPackage. -/

theorem alInsert_of_lookup_none {κ α : Type} [DecidableEq κ]
    (l : List (κ × α)) (k : κ) (v : α) (h : alLookup l k = none) :
    alInsert l k v = l ++ [(k, v)] := by
  induction l with
  | nil => simp [alInsert]
  | cons p rest ih =>
    obtain ⟨k₀, w⟩ := p
    by_cases h0 : k₀ = k
    · subst h0; simp [alLookup] at h
    · simp only [alLookup, if_neg h0] at h
      simp [alInsert, h0, ih h]

/-- Claim C9: CONFIRMED — RegisterPackage on an already-registered package
returns the existing PackageInfo and leaves the registry unchanged (so all
previously registered types and import aliases survive), SetCurrentPackage
on such a package only moves the cursor, and SetCurrentPackage on any
package only ever appends to the packages table, never erasing an entry. -/
theorem c9_registerPackage_idempotent (st : RegStateH) (p : String)
    (info : PkgInfoH) (h : alLookup st.packages p = some info) :
    registerPackageH st p = (info, st) ∧
    setCurrentPackageH st p = { st with current := p } ∧
    ∀ q : String, ∃ tail : List (String × PkgInfoH),
      (setCurrentPackageH st q).packages = st.packages ++ tail := by
  refine ⟨?_, ?_, ?_⟩
  · simp [registerPackageH, h]
  · simp [setCurrentPackageH, registerPackageH, h]
  · intro q
    cases hq : alLookup st.packages q with
    | some infoq =>
      exact ⟨[], by simp [setCurrentPackageH, registerPackageH, hq]⟩
    | none =>
      refine ⟨[(q, emptyPkgInfo)], ?_⟩
      simp [setCurrentPackageH, registerPackageH, hq,
        alInsert_of_lookup_none _ _ _ hq, emptyPkgInfo]

/-- Witness for c9_registerPackage_idempotent at a concrete registry holding
one package with one registered type and one import alias. -/
theorem c9_registerPackage_idempotent_witness :
    alLookup ([("p", (⟨[("User", 0)], [("m", "x.com/m")]⟩ : PkgInfoH))] :
        List (String × PkgInfoH)) "p" =
      some (⟨[("User", 0)], [("m", "x.com/m")]⟩ : PkgInfoH) ∧
    registerPackageH ⟨[("p", ⟨[("User", 0)], [("m", "x.com/m")]⟩)], "p", []⟩ "p" =
      (⟨[("User", 0)], [("m", "x.com/m")]⟩,
        ⟨[("p", ⟨[("User", 0)], [("m", "x.com/m")]⟩)], "p", []⟩) := by
  constructor
  · rfl
  · exact (c9_registerPackage_idempotent
      ⟨[("p", ⟨[("User", 0)], [("m", "x.com/m")]⟩)], "p", []⟩ "p"
      ⟨[("User", 0)], [("m", "x.com/m")]⟩ rfl).1

/-! Claim C7: pointer transparency of schema generation. -/

/-- Claim C7: CONFIRMED — for a Pointer TypeDefinition whose element is `X`
(tree embedding: the non-cyclic object graphs), GenerateSchema returns
exactly the schema GenerateSchema returns for `X` from the same memo state,
provided the pointer's own memo key is not already occupied (a fresh or
honestly-populated generator).  The pointer case of the source delegates
directly to the element and stores the same schema object. -/
theorem c7_pointer_schema_transparent (td x : TypeDefinition)
    (memo : SchemaMemo) (hk : td.kind = .kindPointer)
    (he : td.elementType = some x) (hm : alLookup memo (schemaKey td) = none) :
    (generateSchemaT td memo).1 = (generateSchemaT x memo).1 := by
  obtain ⟨n, k, fs, e, ky, v, p, b, r⟩ := td
  simp [TypeDefinition.kind] at hk
  simp [TypeDefinition.elementType] at he
  subst hk; subst he
  rw [generateSchemaT]
  simp only [hm]
  cases hx : generateSchemaT x memo with
  | mk s1 m1 => cases s1 <;> simp

/-- Witness for c7_pointer_schema_transparent: `*string` against `string` on
an empty memo. -/
theorem c7_pointer_schema_transparent_witness :
    ((TypeDefinition.mk "*string" .kindPointer []
        (some (.mk "string" .kindBasic [] none none none "" "string" true))
        none none "" "" true).kind = .kindPointer) ∧
    (generateSchemaT
        (.mk "*string" .kindPointer []
          (some (.mk "string" .kindBasic [] none none none "" "string" true))
          none none "" "" true) []).1 =
      (generateSchemaT (.mk "string" .kindBasic [] none none none "" "string" true) []).1 := by
  constructor
  · rfl
  · exact c7_pointer_schema_transparent _ _ [] rfl rfl rfl

/-! Claim C5: behavior of trackAssignment on an undeterminable right-hand
side. -/

/-- Resolved struct type `A` used by the tracker counterexamples. -/
def tdA : TypeDefinition := .mk "A" .kindStruct [] none none none "p" "" true

/-- Resolved struct type `B` used by the tracker counterexamples. -/
def tdB : TypeDefinition := .mk "B" .kindStruct [] none none none "p" "" true

/-- Tracker whose scope already binds `x` to type `A`, over an empty
registry. -/
def trackerWithX : TrackerSt :=
  { reg := { packages := [], current := "" },
    vars := [("x", ⟨"x", tdA, false⟩)], functionMap := [] }

/-- The assignment `x = y` where `y` is bound nowhere. -/
def stmtStaleX : AssignStmt :=
  { lhs := [.ident "x"], tok := .tokAssign, rhs := [.ident "y"] }

/-- Claim C5: FALSIFIED by the source — when the right-hand side's type
cannot be determined (here `y`, unbound in scope and in the registry,
resolves to nil), trackAssignment `continue`s without touching the scope
table: afterwards `x` still holds its stale earlier type `A`, not any
Unknown marker (the source has no Unknown kind at all).  The registry change
is only LookupType registering the current package. -/
theorem c5_counterexample_stale_entry :
    (resolveExpressionType trackerWithX (.ident "y")).1 = none ∧
    trackAssignment trackerWithX stmtStaleX =
      some { reg := { packages := [("", ⟨[], []⟩)], current := "" },
             vars := [("x", ⟨"x", tdA, false⟩)], functionMap := [] } := by
  constructor
  · simp [resolveExpressionType, trackerWithX, alLookup, lookupTypeT,
      registerPackageT, alInsert]
  · simp [trackAssignment, stmtStaleX, trackAssignLoop, resolveExpressionType,
      trackerWithX, alLookup, lookupTypeT, registerPackageT, alInsert]

/-- Claim C5, amended: for a single assignment `x = e` whose right-hand
expression's type cannot be determined (resolveExpressionType returns nil),
the tracker completes without aborting and skips the variable: the scope
table is left exactly as it was — a prior entry stays (stale), a missing
entry stays missing — and no Unknown marker is recorded; only the registry
side effect of the failed resolution remains. -/
theorem c5_amended_skip_on_unresolved (ts : TrackerSt) (nm : String) (e : Expr)
    (h : (resolveExpressionType ts e).1 = none) :
    trackAssignment ts { lhs := [.ident nm], tok := .tokAssign, rhs := [e] } =
      some { ts with reg := (resolveExpressionType ts e).2 } := by
  cases hre : resolveExpressionType ts e with
  | mk fst snd =>
    rw [hre] at h
    simp only at h
    subst h
    simp [trackAssignment, trackAssignLoop, hre]

/-- Witness for c5_amended_skip_on_unresolved at the concrete stale-`x`
tracker and the unbound identifier `y`. -/
theorem c5_amended_skip_on_unresolved_witness :
    (resolveExpressionType trackerWithX (.ident "y")).1 = none ∧
    trackAssignment trackerWithX
        { lhs := [.ident "x"], tok := .tokAssign, rhs := [.ident "y"] } =
      some { trackerWithX with
             reg := (resolveExpressionType trackerWithX (.ident "y")).2 } := by
  refine ⟨?_, ?_⟩
  · simp [resolveExpressionType, trackerWithX, alLookup, lookupTypeT,
      registerPackageT, alInsert]
  · apply c5_amended_skip_on_unresolved
    simp [resolveExpressionType, trackerWithX, alLookup, lookupTypeT,
      registerPackageT, alInsert]

/-! Claim C4: which assignment determines the reported type at a call site. -/

/-- Handler body `v := nmA{}; v = nmB{}; c.JSON(200, v)` — the reassignment
precedes the call site. -/
def fnAssignAssignCall (v nmA nmB : String) : FuncDeclM :=
  { name := "h", params := [],
    body := some [
      .assign { lhs := [.ident v], tok := .tokDefine,
                rhs := [.compositeLit (.ident nmA)] },
      .assign { lhs := [.ident v], tok := .tokAssign,
                rhs := [.compositeLit (.ident nmB)] },
      .exprStmt (.call (.selector (.ident "c") "JSON")
        [.basicLit .lint "200", .ident v]) ] }

/-- Handler body `v := nmA{}; c.JSON(200, v); v = nmB{}` — the reassignment
follows the call site. -/
def fnAssignCallAssign (v nmA nmB : String) : FuncDeclM :=
  { name := "h", params := [],
    body := some [
      .assign { lhs := [.ident v], tok := .tokDefine,
                rhs := [.compositeLit (.ident nmA)] },
      .exprStmt (.call (.selector (.ident "c") "JSON")
        [.basicLit .lint "200", .ident v]),
      .assign { lhs := [.ident v], tok := .tokAssign,
                rhs := [.compositeLit (.ident nmB)] } ] }

/-- Registry with structs `A` and `B` registered in package `main`. -/
def regAB : RegistryT :=
  { packages := [("main", ⟨[("A", tdA), ("B", tdB)], []⟩)], current := "main" }

/-- Tracker over `regAB` with empty scope and function map. -/
def trackerAB : TrackerSt := { reg := regAB, vars := [], functionMap := [] }

/-- Tracker state after tracking a body whose last assignment binds `u` to
`B`. -/
def trackerABAfter : TrackerSt :=
  { reg := regAB, vars := [("u", ⟨"u", tdB, false⟩)], functionMap := [] }

/-- Claim C4: FALSIFIED by the source in its general part — TrackFunction
walks the whole body before ResponseAnalyzer resolves the call-site
argument, so the reported type is the variable's type at function exit, not
at the point of use.  Here `u` is bound to `A` before the call site
`c.JSON(200, u)` and reassigned to `B` only after it; the most recent
assignment prior to the point of use is `A`, yet the analyzer reports `B`
(a different type: the names differ). -/
theorem c4_counterexample_reports_exit_type :
    trackFunction trackerAB (fnAssignCallAssign "u" "A" "B") =
      some trackerABAfter ∧
    (analyzeHandler trackerABAfter (fnAssignCallAssign "u" "A" "B")).1 =
      [⟨200, tdB⟩] ∧
    tdB.name ≠ tdA.name := by
  have hcA : goContainsChar "A" '.' = false := by decide
  have hcB : goContainsChar "B" '.' = false := by decide
  have hbA : isBasicTypeGo "A" = false := by decide
  have hbB : isBasicTypeGo "B" = false := by decide
  have hctx : (["c", "ctx", "context", "ec"] : List String).contains "c" = true := by decide
  have hmeth : (["JSON", "JSONPretty", "JSONBlob"] : List String).contains "JSON" = true := by decide
  have hatoi : goAtoi "200" = 200 := by decide
  refine ⟨?_, ?_, ?_⟩
  · simp [trackFunction, trackerAB, trackerABAfter, fnAssignCallAssign,
      trackParams, trackStmts, trackAssignment, trackAssignLoop,
      resolveExpressionType, resolveTypeR, lookupTypeT, registerPackageT,
      regAB, alLookup, alInsert, isPointerTypeE, hcA, hcB, hbA, hbB]
  · simp [analyzeHandler, trackerABAfter, fnAssignCallAssign, collectCallsS,
      collectCallsE, collectCallsL, analyzeCalls, checkJSONResponseMethod,
      resolveResponseType, getVariableType, extractStatusCode, regAB,
      alLookup, hctx, hmeth, hatoi]
  · simp [tdA, tdB, TypeDefinition.name]

/-- Claim C4, amended: the type reported for a variable at a call site is
the type of its last assignment in the entire function body (its type at
function exit).  In particular a variable bound to `A` and reassigned to `B`
before the call site is reported as `B` — but a variable reassigned to `B`
after the call site is reported as `B` as well. -/
theorem c4_amended_last_assignment_wins (ts : TrackerSt) (info : PkgInfoT)
    (tda tdb : TypeDefinition) (nmA nmB v : String)
    (hp : alLookup ts.reg.packages ts.reg.current = some info)
    (hbA : isBasicTypeGo nmA = false) (hbB : isBasicTypeGo nmB = false)
    (hdA : goContainsChar nmA '.' = false)
    (hdB : goContainsChar nmB '.' = false)
    (hA : alLookup info.types nmA = some tda)
    (hB : alLookup info.types nmB = some tdb) :
    (trackFunction ts (fnAssignAssignCall v nmA nmB) =
        some { reg := ts.reg, vars := [(v, ⟨v, tdb, false⟩)],
               functionMap := ts.functionMap } ∧
      (analyzeHandler
          { reg := ts.reg, vars := [(v, ⟨v, tdb, false⟩)],
            functionMap := ts.functionMap }
          (fnAssignAssignCall v nmA nmB)).1 = [⟨200, tdb⟩]) ∧
    (trackFunction ts (fnAssignCallAssign v nmA nmB) =
        some { reg := ts.reg, vars := [(v, ⟨v, tdb, false⟩)],
               functionMap := ts.functionMap } ∧
      (analyzeHandler
          { reg := ts.reg, vars := [(v, ⟨v, tdb, false⟩)],
            functionMap := ts.functionMap }
          (fnAssignCallAssign v nmA nmB)).1 = [⟨200, tdb⟩]) := by
  have hreg : registerPackageT ts.reg ts.reg.current = (info, ts.reg) := by
    simp [registerPackageT, hp]
  have hlookA : lookupTypeT ts.reg nmA = (some tda, ts.reg) := by
    simp [lookupTypeT, hdA, hreg, hA]
  have hlookB : lookupTypeT ts.reg nmB = (some tdb, ts.reg) := by
    simp [lookupTypeT, hdB, hreg, hB]
  have hctx : (["c", "ctx", "context", "ec"] : List String).contains "c" = true := by decide
  have hmeth : (["JSON", "JSONPretty", "JSONBlob"] : List String).contains "JSON" = true := by decide
  have hatoi : goAtoi "200" = 200 := by decide
  refine ⟨⟨?_, ?_⟩, ⟨?_, ?_⟩⟩
  · simp [trackFunction, fnAssignAssignCall, trackParams, trackStmts,
      trackAssignment, trackAssignLoop, resolveExpressionType, resolveTypeR,
      hbA, hbB, hlookA, hlookB, alInsert, isPointerTypeE]
  · simp [analyzeHandler, fnAssignAssignCall, collectCallsS, collectCallsE,
      collectCallsL, analyzeCalls, checkJSONResponseMethod,
      resolveResponseType, getVariableType, extractStatusCode, alLookup,
      hctx, hmeth, hatoi]
  · simp [trackFunction, fnAssignCallAssign, trackParams, trackStmts,
      trackAssignment, trackAssignLoop, resolveExpressionType, resolveTypeR,
      hbA, hbB, hlookA, hlookB, alInsert, isPointerTypeE]
  · simp [analyzeHandler, fnAssignCallAssign, collectCallsS, collectCallsE,
      collectCallsL, analyzeCalls, checkJSONResponseMethod,
      resolveResponseType, getVariableType, extractStatusCode, alLookup,
      hctx, hmeth, hatoi]

/-- Witness for c4_amended_last_assignment_wins at the concrete `A`/`B`
registry. -/
theorem c4_amended_last_assignment_wins_witness :
    alLookup trackerAB.reg.packages trackerAB.reg.current =
      some (⟨[("A", tdA), ("B", tdB)], []⟩ : PkgInfoT) ∧
    (trackFunction trackerAB (fnAssignAssignCall "u" "A" "B") =
        some { reg := trackerAB.reg, vars := [("u", ⟨"u", tdB, false⟩)],
               functionMap := trackerAB.functionMap } ∧
      (analyzeHandler
          { reg := trackerAB.reg, vars := [("u", ⟨"u", tdB, false⟩)],
            functionMap := trackerAB.functionMap }
          (fnAssignAssignCall "u" "A" "B")).1 = [⟨200, tdB⟩]) := by
  constructor
  · rfl
  · exact (c4_amended_last_assignment_wins trackerAB
      ⟨[("A", tdA), ("B", tdB)], []⟩ tdA tdB "A" "B" "u" rfl (by decide)
      (by decide) (by decide) (by decide) rfl rfl).1

/-! Claim C6: property set and required set of a struct schema. -/

/-- Pointer chains that end in an actual node.  GenerateSchema returns a nil
schema exactly when a chain of Pointer nodes ends in a nil ElementType — a
value no code path of the program ever constructs (ResolveType and
resolveExpressionType always attach the element when they build a Pointer). -/
def ptrChainOk : TypeDefinition → Bool
  | .mk _ kind _ elementType _ _ _ _ _ =>
    match kind with
    | .kindPointer =>
      match elementType with
      | some e => ptrChainOk e
      | none => false
    | _ => true

/-- Field whose type, when present, has a well-ended pointer chain. -/
def fieldTypeOk (f : FieldDefinition) : Bool :=
  match f.type with
  | some t => ptrChainOk t
  | none => true

/-- GenerateSchema returns a non-nil schema from any memo state whenever the
type's pointer chain ends in a node. -/
theorem generateSchemaT_isSome_aux :
    ∀ (n : Nat) (td : TypeDefinition) (memo : SchemaMemo), sizeOf td ≤ n →
      ptrChainOk td = true → ((generateSchemaT td memo).1).isSome = true := by
  intro n
  induction n with
  | zero =>
    intro td memo hle _
    exact absurd hle (by cases td; simp)
  | succ n ih =>
    intro td memo hle hok
    obtain ⟨nm, kind, fs, elem, kt, vt, pk, bt, rs⟩ := td
    cases kind with
    | kindStruct =>
      rw [generateSchemaT]
      cases hmemo : alLookup memo
        (schemaKey (.mk nm .kindStruct fs elem kt vt pk bt rs)) with
      | some s => simp
      | none =>
        cases hgf : genFieldsT fs [] [] memo with
        | mk props rest => simp [hgf]
    | kindArray =>
      cases elem with
      | none =>
        rw [generateSchemaT]
        cases hmemo : alLookup memo
          (schemaKey (.mk nm .kindArray fs none kt vt pk bt rs)) with
        | some s => simp
        | none => simp
      | some e =>
        rw [generateSchemaT]
        cases hmemo : alLookup memo
          (schemaKey (.mk nm .kindArray fs (some e) kt vt pk bt rs)) with
        | some s => simp
        | none =>
          cases hg : generateSchemaT e memo with
          | mk s1 m1 => simp [hg]
    | kindMap =>
      cases vt with
      | none =>
        rw [generateSchemaT]
        cases hmemo : alLookup memo
          (schemaKey (.mk nm .kindMap fs elem kt none pk bt rs)) with
        | some s => simp
        | none => simp
      | some v =>
        rw [generateSchemaT]
        cases hmemo : alLookup memo
          (schemaKey (.mk nm .kindMap fs elem kt (some v) pk bt rs)) with
        | some s => simp
        | none =>
          cases hg : generateSchemaT v memo with
          | mk s1 m1 => simp [hg]
    | kindBasic =>
      rw [generateSchemaT]
      cases hmemo : alLookup memo
        (schemaKey (.mk nm .kindBasic fs elem kt vt pk bt rs)) with
      | some s => simp
      | none => simp
    | kindPointer =>
      cases elem with
      | none => simp [ptrChainOk] at hok
      | some e =>
        have he : ptrChainOk e = true := by simpa [ptrChainOk] using hok
        have hsz : sizeOf e ≤ n := by
          have hlt : sizeOf e <
              sizeOf (TypeDefinition.mk nm .kindPointer fs (some e) kt vt pk bt rs) := by
            simp
            omega
          omega
        have hs := ih e memo hsz he
        rw [generateSchemaT]
        cases hmemo : alLookup memo
          (schemaKey (.mk nm .kindPointer fs (some e) kt vt pk bt rs)) with
        | some s => simp
        | none =>
          cases hgen : generateSchemaT e memo with
          | mk s1 m1 =>
            cases s1 with
            | none => rw [hgen] at hs; simp at hs
            | some s => simp [hgen]

/-- Convenient restatement of generateSchemaT_isSome_aux. -/
theorem generateSchemaT_isSome (td : TypeDefinition) (memo : SchemaMemo)
    (h : ptrChainOk td = true) : ((generateSchemaT td memo).1).isSome = true :=
  generateSchemaT_isSome_aux (sizeOf td) td memo le_rfl h

/-- Characterization of the generateStructSchema field loop: which wire
names end up in the properties map and in the required list. -/
theorem genFieldsT_char :
    ∀ (fields : List FieldDefinition) (props : List (String × JSONSchema))
      (req : List String) (memo : SchemaMemo) props' req' memo',
      (∀ f ∈ fields, fieldTypeOk f = true) →
      genFieldsT fields props req memo = (props', req', memo') →
      ((∀ nm, (alLookup props' nm).isSome ↔
          ((alLookup props nm).isSome ∨
            ∃ f ∈ fields, f.type.isSome ∧ wireName f = nm)) ∧
        (∀ nm, nm ∈ req' ↔
          (nm ∈ req ∨
            ∃ f ∈ fields, f.type.isSome ∧ f.omitempty = false ∧ wireName f = nm))) := by
  intro fields
  induction fields with
  | nil =>
    intro props req memo props' req' memo' _ heq
    simp only [genFieldsT] at heq
    cases heq
    simp
  | cons f rest ih =>
    intro props req memo props' req' memo' hok heq
    obtain ⟨fn, ft, fj, fo, fp⟩ := f
    have hokf := hok _ (List.mem_cons_self _ _)
    have hokr : ∀ g ∈ rest, fieldTypeOk g = true :=
      fun g hg => hok g (List.mem_cons_of_mem _ hg)
    cases ft with
    | none =>
      rw [genFieldsT] at heq
      have hmain := ih props req memo props' req' memo' hokr heq
      refine ⟨fun w => ?_, fun w => ?_⟩
      · rw [(hmain.1 w)]
        simp [FieldDefinition.type]
      · rw [(hmain.2 w)]
        simp [FieldDefinition.type]
    | some t =>
      have hpc : ptrChainOk t = true := by
        simpa [fieldTypeOk, FieldDefinition.type] using hokf
      rw [genFieldsT] at heq
      cases hg : generateSchemaT t memo with
      | mk s1 m1 =>
        have hsome := generateSchemaT_isSome t memo hpc
        rw [hg] at hsome
        cases s1 with
        | none => simp at hsome
        | some s =>
          rw [hg] at heq
          simp only at heq
          have hmain := ih
            (alInsert props (wireName (.mk fn (some t) fj fo fp)) s)
            (if fo then req else req ++ [wireName (.mk fn (some t) fj fo fp)])
            m1 props' req' memo' hokr heq
          have hreq1 : ∀ w,
              (w ∈ (if fo then req
                else req ++ [wireName (.mk fn (some t) fj fo fp)])) ↔
              (w ∈ req ∨
                (fo = false ∧ w = wireName (.mk fn (some t) fj fo fp))) := by
            intro w
            by_cases hfo : fo = true
            · simp [hfo]
            · simp only [Bool.not_eq_true] at hfo
              simp [hfo]
          refine ⟨fun w => ?_, fun w => ?_⟩
          · rw [(hmain.1 w), alLookup_insert_isSome]
            constructor
            · rintro ((h1 | h1) | ⟨g, hg1, hg2, hg3⟩)
              · exact Or.inr ⟨_, List.mem_cons_self _ _,
                  by simp [FieldDefinition.type], h1.symm⟩
              · exact Or.inl h1
              · exact Or.inr ⟨g, List.mem_cons_of_mem _ hg1, hg2, hg3⟩
            · rintro (h1 | ⟨g, hg1, hg2, hg3⟩)
              · exact Or.inl (Or.inr h1)
              · rcases List.mem_cons.mp hg1 with hgf | hgr
                · subst hgf
                  exact Or.inl (Or.inl hg3.symm)
                · exact Or.inr ⟨g, hgr, hg2, hg3⟩
          · rw [(hmain.2 w), hreq1 w]
            constructor
            · rintro ((h1 | ⟨hfo, h1⟩) | ⟨g, hg1, hg2, hg3, hg4⟩)
              · exact Or.inl h1
              · refine Or.inr ⟨_, List.mem_cons_self _ _,
                  by simp [FieldDefinition.type], ?_, h1.symm⟩
                simp [FieldDefinition.omitempty, hfo]
              · exact Or.inr ⟨g, List.mem_cons_of_mem _ hg1, hg2, hg3, hg4⟩
            · rintro (h1 | ⟨g, hg1, hg2, hg3, hg4⟩)
              · exact Or.inl (Or.inl h1)
              · rcases List.mem_cons.mp hg1 with hgf | hgr
                · subst hgf
                  refine Or.inl (Or.inr ⟨?_, hg4.symm⟩)
                  simpa [FieldDefinition.omitempty] using hg3
                · exact Or.inr ⟨g, hgr, hg2, hg3, hg4⟩

/-- Claim C6: CONFIRMED — for a struct TypeDefinition (whose field types,
as everywhere in graphs the program builds, have well-ended pointer chains)
and a memo not already holding the struct's key, the generated schema is an
object schema, a wire name is a property exactly when some typed field
carries it, and a wire name is required exactly when some typed field
carries it with Omitempty unset. -/
theorem c6_struct_schema_properties_required (td : TypeDefinition)
    (memo : SchemaMemo) (hk : td.kind = .kindStruct)
    (hm : alLookup memo (schemaKey td) = none)
    (hok : ∀ f ∈ td.fields, fieldTypeOk f = true) :
    ∃ s memo', generateSchemaT td memo = (some s, memo') ∧
      s.type = "object" ∧
      (∀ nm, (alLookup s.properties nm).isSome ↔
        ∃ f ∈ td.fields, f.type.isSome ∧ wireName f = nm) ∧
      (∀ nm, nm ∈ s.required ↔
        ∃ f ∈ td.fields, f.type.isSome ∧ f.omitempty = false ∧ wireName f = nm) := by
  obtain ⟨nm, kind, fs, elem, kt, vt, pk, bt, rs⟩ := td
  simp only [TypeDefinition.kind] at hk
  subst hk
  simp only [TypeDefinition.fields] at hok
  cases hgf : genFieldsT fs [] [] memo with
  | mk props rest =>
    obtain ⟨req, memo1⟩ := rest
    have hchar := genFieldsT_char fs [] [] memo props req memo1 hok hgf
    refine ⟨.mk "object" "" "" none props req none,
      alInsert memo1 (schemaKey (.mk nm .kindStruct fs elem kt vt pk bt rs))
        (.mk "object" "" "" none props req none), ?_, rfl, ?_, ?_⟩
    · rw [generateSchemaT]
      simp [hm, hgf]
    · intro w
      rw [JSONSchema.properties, (hchar.1 w)]
      simp [alLookup, TypeDefinition.fields]
    · intro w
      rw [JSONSchema.required, (hchar.2 w)]
      simp [TypeDefinition.fields]

/-- Basic `int` TypeDefinition. -/
def tdInt : TypeDefinition := .mk "int" .kindBasic [] none none none "" "int" true

/-- Basic `string` TypeDefinition. -/
def tdString : TypeDefinition :=
  .mk "string" .kindBasic [] none none none "" "string" true

/-- The spec's example record: fields `{id: int, name: string, bio: string
(optional)}` with wire names from JSON tags and `bio` carrying omitempty. -/
def tdUser : TypeDefinition :=
  .mk "User" .kindStruct
    [.mk "ID" (some tdInt) "id" false false,
     .mk "Name" (some tdString) "name" false false,
     .mk "Bio" (some tdString) "bio" true false]
    none none none "p" "" true

/-- Witness for c6_struct_schema_properties_required at the spec's concrete
example, together with the fully evaluated schema: properties {id, name,
bio}, required exactly [id, name]. -/
theorem c6_struct_schema_properties_required_witness :
    (tdUser.kind = .kindStruct ∧
      alLookup ([] : SchemaMemo) (schemaKey tdUser) = none) ∧
    (∃ s memo', generateSchemaT tdUser [] = (some s, memo') ∧
      s.type = "object" ∧
      (∀ nm, (alLookup s.properties nm).isSome ↔
        ∃ f ∈ tdUser.fields, f.type.isSome ∧ wireName f = nm) ∧
      (∀ nm, nm ∈ s.required ↔
        ∃ f ∈ tdUser.fields, f.type.isSome ∧ f.omitempty = false ∧ wireName f = nm)) ∧
    (generateSchemaT tdUser []).1 =
      some (.mk "object" "" "" none
        [("id", .mk "integer" "" "" none [] [] none),
         ("name", .mk "string" "" "" none [] [] none),
         ("bio", .mk "string" "" "" none [] [] none)]
        ["id", "name"] none) := by
  refine ⟨⟨rfl, rfl⟩, ?_, ?_⟩
  · apply c6_struct_schema_properties_required tdUser [] rfl rfl
    intro f hf
    simp only [tdUser, TypeDefinition.fields, List.mem_cons,
      List.not_mem_nil, or_false] at hf
    rcases hf with rfl | rfl | rfl <;>
      simp [fieldTypeOk, FieldDefinition.type, ptrChainOk, tdInt, tdString]
  · simp [generateSchemaT, genFieldsT, tdUser, tdInt, tdString, schemaKey,
      alLookup, alInsert, wireName, generateBasicSchema,
      TypeDefinition.pkg, TypeDefinition.name, TypeDefinition.basicType,
      FieldDefinition.jsonName, FieldDefinition.name]

/-! Claim C10: fields tagged `json:"-"`. -/

/-- Wire names all of whose carriers are omitempty never enter the example
object built by generateStructExample. -/
theorem genExampleFields_no_key :
    ∀ (fields : List FieldDefinition) (acc : List (String × JSONValue))
      (w : String),
      (∀ g ∈ fields, wireName g = w → g.omitempty = true) →
      alLookup acc w = none → alLookup (genExampleFields fields acc) w = none := by
  intro fields
  induction fields with
  | nil =>
    intro acc w _ hacc
    rw [genExampleFields]
    exact hacc
  | cons f rest ih =>
    intro acc w hall hacc
    obtain ⟨fn, ft, fj, fo, fp⟩ := f
    have hallr : ∀ g ∈ rest, wireName g = w → g.omitempty = true :=
      fun g hg => hall g (List.mem_cons_of_mem _ hg)
    cases ft with
    | none =>
      rw [genExampleFields]
      exact ih acc w hallr hacc
    | some t =>
      rw [genExampleFields]
      cases fo with
      | true =>
        rw [if_pos rfl]
        exact ih acc w hallr hacc
      | false =>
        have hwire : wireName (.mk fn (some t) fj false fp) ≠ w := by
          intro hw
          have hcontr := hall _ (List.mem_cons_self _ _) hw
          simp [FieldDefinition.omitempty] at hcontr
        rw [if_neg (show ¬ ((false : Bool) = true) by simp)]
        cases hex : generateExample t with
        | none => exact ih acc w hallr hacc
        | some ex =>
          refine ih _ w hallr ?_
          rw [alLookup_insert_other _ _ _ _ (fun hh => hwire hh.symm)]
          exact hacc

/-- Claim C10: CONFIRMED — extractJSONTag on a `json:"-"` tag returns an
empty wire name with omitempty set (also when other tags precede it), and a
field carrying that result (JSONName empty, Omitempty true) appears in the
struct's generated schema under its declared Go name, is absent from the
required list (given that no other field carries that wire name), and is
omitted from the generated example object.  It is not excluded from the
schema. -/
theorem c10_dash_tag_field_optional (td : TypeDefinition) (memo : SchemaMemo)
    (f : FieldDefinition) (hk : td.kind = .kindStruct)
    (hm : alLookup memo (schemaKey td) = none)
    (hok : ∀ g ∈ td.fields, fieldTypeOk g = true)
    (hf : f ∈ td.fields) (hjn : f.jsonName = "") (hom : f.omitempty = true)
    (hty : f.type.isSome = true)
    (hdist : ∀ g ∈ td.fields, wireName g = f.name → g = f) :
    (extractJSONTag (some (String.mk
        (Char.ofNat 96 :: "json:".toList ++ '"' :: '-' :: '"' ::
          [Char.ofNat 96]))) = ("", true) ∧
      extractJSONTag (some (String.mk
        (Char.ofNat 96 :: "xml:".toList ++ '"' :: 'x' :: '"' :: ' ' ::
          "json:".toList ++ '"' :: '-' :: '"' :: [Char.ofNat 96]))) = ("", true)) ∧
    (∃ s memo', generateSchemaT td memo = (some s, memo') ∧
      (alLookup s.properties f.name).isSome = true ∧
      f.name ∉ s.required) ∧
    (∃ entries, generateExample td = some (.jobj entries) ∧
      alLookup entries f.name = none) := by
  have hwf : wireName f = f.name := by simp [wireName, hjn]
  refine ⟨⟨by decide, by decide⟩, ?_, ?_⟩
  · obtain ⟨nm, kind, fs, elem, kt, vt, pk, bt, rs⟩ := td
    simp only [TypeDefinition.kind] at hk
    subst hk
    simp only [TypeDefinition.fields] at hok hf hdist
    cases hgf : genFieldsT fs [] [] memo with
    | mk props rest =>
      obtain ⟨req, memo1⟩ := rest
      have hchar := genFieldsT_char fs [] [] memo props req memo1 hok hgf
      refine ⟨.mk "object" "" "" none props req none,
        alInsert memo1 (schemaKey (.mk nm .kindStruct fs elem kt vt pk bt rs))
          (.mk "object" "" "" none props req none), ?_, ?_, ?_⟩
      · rw [generateSchemaT]
        simp [hm, hgf]
      · rw [JSONSchema.properties, (hchar.1 f.name)]
        simp only [alLookup, Option.isSome_none, Bool.false_eq_true, false_or]
        exact ⟨f, hf, hty, hwf⟩
      · rw [JSONSchema.required, (hchar.2 f.name)]
        rintro (h1 | ⟨g, hg1, _, hg3, hg4⟩)
        · simp at h1
        · have := hdist g hg1 hg4
          subst this
          rw [hom] at hg3
          exact absurd hg3 (by simp)
  · obtain ⟨nm, kind, fs, elem, kt, vt, pk, bt, rs⟩ := td
    simp only [TypeDefinition.kind] at hk
    subst hk
    simp only [TypeDefinition.fields] at hdist
    refine ⟨genExampleFields fs [], ?_, ?_⟩
    · rw [generateExample]
    · refine genExampleFields_no_key fs [] f.name ?_ rfl
      intro g hg hw
      have := hdist g hg hw
      subst this
      exact hom

/-- Witness for c10_dash_tag_field_optional: struct `Acct` whose `Password`
field carries `json:"-"` (collected as JSONName empty, Omitempty true) next
to a normal `User` field. -/
theorem c10_dash_tag_field_optional_witness :
    ((TypeDefinition.mk "Acct" .kindStruct
        [.mk "Password" (some tdString) "" true false,
         .mk "User" (some tdString) "user" false false]
        none none none "p" "" true).kind = .kindStruct) ∧
    ((∃ s memo', generateSchemaT
        (.mk "Acct" .kindStruct
          [.mk "Password" (some tdString) "" true false,
           .mk "User" (some tdString) "user" false false]
          none none none "p" "" true) [] = (some s, memo') ∧
        (alLookup s.properties "Password").isSome = true ∧
        "Password" ∉ s.required) ∧
      (∃ entries, generateExample
          (.mk "Acct" .kindStruct
            [.mk "Password" (some tdString) "" true false,
             .mk "User" (some tdString) "user" false false]
            none none none "p" "" true) = some (.jobj entries) ∧
        alLookup entries "Password" = none)) := by
  refine ⟨rfl, ?_⟩
  have h := c10_dash_tag_field_optional
    (.mk "Acct" .kindStruct
      [.mk "Password" (some tdString) "" true false,
       .mk "User" (some tdString) "user" false false]
      none none none "p" "" true) []
    (.mk "Password" (some tdString) "" true false)
    rfl rfl ?_ ?_ rfl rfl rfl ?_
  · exact ⟨h.2.1, h.2.2⟩
  · intro g hg
    simp only [TypeDefinition.fields, List.mem_cons, List.not_mem_nil,
      or_false] at hg
    rcases hg with rfl | rfl <;>
      simp [fieldTypeOk, FieldDefinition.type, ptrChainOk, tdString]
  · simp [TypeDefinition.fields]
  · intro g hg hw
    simp only [TypeDefinition.fields, List.mem_cons, List.not_mem_nil,
      or_false] at hg
    rcases hg with rfl | rfl
    · rfl
    · simp [wireName, FieldDefinition.jsonName, FieldDefinition.name] at hw

/-! Claims C2 and C8 (resolver half): effects of PackageResolver.resolveType
and ResolvePackages on the heap and the registry. -/

/-- Evolution relation of the heap under the package resolver: every object
is either untouched or has (only) its IsResolved flag set. -/
def heapStep (h h' : HeapH) : Prop :=
  ∀ r, hLookup h' r = hLookup h r ∨
    ∃ node, hLookup h r = some node ∧
      hLookup h' r = some { node with isResolved := true }

theorem heapStep_refl (h : HeapH) : heapStep h h := fun _ => Or.inl rfl

theorem heapStep_trans {h1 h2 h3 : HeapH} (a : heapStep h1 h2)
    (b : heapStep h2 h3) : heapStep h1 h3 := by
  intro r
  rcases b r with hb | ⟨node2, hb1, hb2⟩
  · rcases a r with ha | ⟨node1, ha1, ha2⟩
    · exact Or.inl (hb.trans ha)
    · exact Or.inr ⟨node1, ha1, hb.trans ha2⟩
  · rcases a r with ha | ⟨node1, ha1, ha2⟩
    · exact Or.inr ⟨node2, hb1 ▸ ha ▸ rfl, hb2⟩
    · refine Or.inr ⟨node1, ha1, ?_⟩
      rw [ha2] at hb1
      cases hb1
      exact hb2

/-- Object at `r` exists and is marked resolved. -/
def resolvedOk (h : HeapH) (r : Ref) : Prop :=
  ∃ node, hLookup h r = some node ∧ node.isResolved = true

theorem resolvedOk_mono {h h' : HeapH} {r : Ref} (hs : heapStep h h')
    (hr : resolvedOk h r) : resolvedOk h' r := by
  obtain ⟨node, hn, hres⟩ := hr
  rcases hs r with h1 | ⟨node1, h1, h2⟩
  · exact ⟨node, h1.trans hn, hres⟩
  · rw [hn] at h1
    cases h1
    exact ⟨_, h2, rfl⟩

/-- Under heapStep every object keeps all its content except possibly the
IsResolved flag. -/
theorem heapStep_content {h h' : HeapH} {r : Ref} {node : TypeNodeH}
    (hs : heapStep h h') (hn : hLookup h r = some node) :
    ∃ node', hLookup h' r = some node' ∧
      (node' = node ∨ node' = { node with isResolved := true }) := by
  rcases hs r with h1 | ⟨node1, h1, h2⟩
  · exact ⟨node, h1.trans hn, Or.inl rfl⟩
  · rw [hn] at h1
    cases h1
    exact ⟨_, h2, Or.inr rfl⟩

theorem hLookup_update_self (h : HeapH) (r : Ref) (n : TypeNodeH) :
    hLookup (hUpdate h r n) r = some n := alLookup_insert_self h r n

theorem hLookup_update_other (h : HeapH) (r r' : Ref) (n : TypeNodeH)
    (hne : r' ≠ r) : hLookup (hUpdate h r n) r' = hLookup h r' :=
  alLookup_insert_other h r r' n hne

/-- Effects of resolveType / its field loop (joint statement over the fuel):
a successful run only marks IsResolved flags, and marks its argument. -/
theorem resolveTypeH_effects :
    ∀ n : Nat,
      (∀ (h : HeapH) (r : Ref) (h' : HeapH), resolveTypeH n h r = some h' →
        heapStep h h' ∧ resolvedOk h' r) ∧
      (∀ (h : HeapH) (fs : List FieldH) (h' : HeapH),
        resolveFieldsH n h fs = some h' → heapStep h h') := by
  intro n
  induction n with
  | zero =>
    constructor
    · intro h r h' heq
      rw [resolveTypeH] at heq
      cases heq
    · intro h fs
      induction fs with
      | nil =>
        intro h' heq
        rw [resolveFieldsH] at heq
        cases heq
        exact heapStep_refl h
      | cons f rest ihf =>
        intro h' heq
        rw [resolveFieldsH] at heq
        cases hft : f.type with
        | none => rw [hft] at heq; exact ihf h' heq
        | some fr =>
          rw [hft] at heq
          simp [resolveTypeH] at heq
  | succ n ih =>
    have typeCase : ∀ (h : HeapH) (r : Ref) (h' : HeapH),
        resolveTypeH (n + 1) h r = some h' → heapStep h h' ∧ resolvedOk h' r := by
      intro h r h' heq
      rw [resolveTypeH] at heq
      cases hn : hLookup h r with
      | none => rw [hn] at heq; cases heq
      | some node =>
        rw [hn] at heq
        simp only at heq
        by_cases hres : node.isResolved = true
        · rw [if_pos hres] at heq
          cases heq
          exact ⟨heapStep_refl h, node, hn, hres⟩
        · rw [if_neg hres] at heq
          have finish : ∀ h2 : HeapH, heapStep h h2 →
              (match hLookup h2 r with
                | none => none
                | some node2 =>
                  some (hUpdate h2 r { node2 with isResolved := true })) = some h' →
              heapStep h h' ∧ resolvedOk h' r := by
            intro h2 hstep hmat
            cases hn2 : hLookup h2 r with
            | none => rw [hn2] at hmat; cases hmat
            | some node2 =>
              rw [hn2] at hmat
              cases hmat
              constructor
              · refine heapStep_trans hstep ?_
                intro r'
                by_cases hr' : r' = r
                · subst hr'
                  exact Or.inr ⟨node2, hn2, hLookup_update_self h2 r' _⟩
                · exact Or.inl (hLookup_update_other h2 r r' _ hr')
              · exact ⟨_, hLookup_update_self h2 r _, rfl⟩
          split at heq
          · cases heq
          · next h2 hbig =>
            refine finish h2 ?_ heq
            clear heq
            split at hbig
            · exact ih.2 h node.fields h2 hbig
            · split at hbig
              · exact (ih.1 h _ h2 hbig).1
              · cases hbig; exact heapStep_refl h
            · cases hke : node.keyType with
              | some kr =>
                rw [hke] at hbig
                simp only at hbig
                cases hh1 : resolveTypeH n h kr with
                | none =>
                  rw [hh1] at hbig
                  simp only at hbig
                  cases hbig
                | some h1 =>
                  rw [hh1] at hbig
                  simp only at hbig
                  cases hve : node.valueType with
                  | some vr =>
                    rw [hve] at hbig
                    simp only at hbig
                    exact heapStep_trans (ih.1 h kr h1 hh1).1
                      (ih.1 h1 vr h2 hbig).1
                  | none =>
                    rw [hve] at hbig
                    simp only at hbig
                    cases hbig
                    exact (ih.1 h kr _ hh1).1
              | none =>
                rw [hke] at hbig
                simp only at hbig
                cases hve : node.valueType with
                | some vr =>
                  rw [hve] at hbig
                  simp only at hbig
                  exact (ih.1 h vr h2 hbig).1
                | none =>
                  rw [hve] at hbig
                  simp only at hbig
                  cases hbig
                  exact heapStep_refl h
            · cases hbig; exact heapStep_refl h
            · split at hbig
              · exact (ih.1 h _ h2 hbig).1
              · cases hbig; exact heapStep_refl h
    constructor
    · exact typeCase
    · intro h fs
      induction fs generalizing h with
      | nil =>
        intro h' heq
        rw [resolveFieldsH] at heq
        cases heq
        exact heapStep_refl h
      | cons f rest ihf =>
        intro h' heq
        rw [resolveFieldsH] at heq
        cases hft : f.type with
        | none => rw [hft] at heq; exact ihf h h' heq
        | some fr =>
          rw [hft] at heq
          simp only at heq
          cases hr : resolveTypeH (n + 1) h fr with
          | none =>
            rw [hr] at heq
            simp only at heq
            cases heq
          | some h1 =>
            rw [hr] at heq
            simp only at heq
            exact heapStep_trans (typeCase h fr h1 hr).1 (ihf h1 h' heq)

theorem alLookup_append_left {κ α : Type} [DecidableEq κ]
    {l : List (κ × α)} (t : List (κ × α)) {k : κ} {v : α}
    (h : alLookup l k = some v) : alLookup (l ++ t) k = some v := by
  induction l with
  | nil => simp [alLookup] at h
  | cons p rest ih =>
    obtain ⟨k0, w⟩ := p
    by_cases h0 : k0 = k
    · subst h0
      simp [alLookup] at h ⊢
      exact h
    · simp only [alLookup, if_neg h0] at h
      simp only [List.cons_append, alLookup, if_neg h0]
      exact ih h

theorem alLookup_append_right {κ α : Type} [DecidableEq κ]
    {l : List (κ × α)} (t : List (κ × α)) {k : κ}
    (h : alLookup l k = none) : alLookup (l ++ t) k = alLookup t k := by
  induction l with
  | nil => simp
  | cons p rest ih =>
    obtain ⟨k0, w⟩ := p
    by_cases h0 : k0 = k
    · subst h0; simp [alLookup] at h
    · simp only [alLookup, if_neg h0] at h
      simp only [List.cons_append, alLookup, if_neg h0]
      exact ih h

theorem alLookup_mem {κ α : Type} [DecidableEq κ]
    {l : List (κ × α)} {k : κ} {v : α} (h : alLookup l k = some v) :
    (k, v) ∈ l := by
  induction l with
  | nil => simp [alLookup] at h
  | cons p rest ih =>
    obtain ⟨k0, w⟩ := p
    by_cases h0 : k0 = k
    · subst h0
      simp [alLookup] at h
      subst h
      exact List.mem_cons_self _ _
    · simp only [alLookup, if_neg h0] at h
      exact List.mem_cons_of_mem _ (ih h)

theorem alLookup_isSome_of_mem_fst {κ α : Type} [DecidableEq κ]
    {l : List (κ × α)} {k : κ} (h : k ∈ l.map Prod.fst) :
    (alLookup l k).isSome = true := by
  induction l with
  | nil => simp at h
  | cons p rest ih =>
    obtain ⟨k0, w⟩ := p
    by_cases h0 : k0 = k
    · subst h0; simp [alLookup]
    · simp only [List.map_cons, List.mem_cons] at h
      rcases h with h | h


      · exact absurd h.symm h0
      · simp only [alLookup, if_neg h0]
        exact ih h

/-- Effects of the type loop of resolvePackageTypes: only marks flags and
marks every listed type. -/
theorem resolveTypeListH_effects (n : Nat) :
    ∀ (types : List (String × Ref)) (h h' : HeapH),
      resolveTypeListH n h types = some h' →
      heapStep h h' ∧ ∀ t ∈ types, resolvedOk h' t.2 := by
  intro types
  induction types with
  | nil =>
    intro h h' heq
    rw [resolveTypeListH] at heq
    cases heq
    exact ⟨heapStep_refl h, by simp⟩
  | cons t rest ih =>
    intro h h' heq
    obtain ⟨nm, r⟩ := t
    rw [resolveTypeListH] at heq
    cases hr : resolveTypeH n h r with
    | none => rw [hr] at heq; cases heq
    | some h1 =>
      rw [hr] at heq
      simp only at heq
      have e1 := (resolveTypeH_effects n).1 h r h1 hr
      have e2 := ih h1 h' heq
      refine ⟨heapStep_trans e1.1 e2.1, ?_⟩
      intro t ht
      rcases List.mem_cons.mp ht with ht | ht


      · subst ht
        exact resolvedOk_mono e2.1 e1.2
      · exact e2.2 t ht

/-- Effects of SetCurrentPackage on the registry state. -/
theorem setCurrentPackageH_effects (st : RegStateH) (p : String) :
    (setCurrentPackageH st p).heap = st.heap ∧
    (∃ tail, (setCurrentPackageH st p).packages = st.packages ++ tail ∧
      ∀ e ∈ tail, e.2 = emptyPkgInfo) ∧
    (alLookup (setCurrentPackageH st p).packages p).isSome = true ∧
    (∀ info, alLookup st.packages p = some info →
      (setCurrentPackageH st p).packages = st.packages ∧
      alLookup (setCurrentPackageH st p).packages p = some info) := by
  cases hl : alLookup st.packages p with
  | some info =>
    have hst : setCurrentPackageH st p = { st with current := p } := by
      simp [setCurrentPackageH, registerPackageH, hl]
    rw [hst]
    refine ⟨rfl, ⟨[], by simp⟩, by simp [hl], ?_⟩
    intro info' hinfo'
    cases hinfo'
    exact ⟨rfl, hl⟩
  | none =>
    have hst : setCurrentPackageH st p =
        { st with current := p,
                  packages := alInsert st.packages p emptyPkgInfo } := by
      simp [setCurrentPackageH, registerPackageH, hl]
    rw [hst]
    refine ⟨rfl, ⟨[(p, emptyPkgInfo)], ?_, by simp⟩, ?_, ?_⟩
    · exact alInsert_of_lookup_none _ _ _ hl
    · simp [alLookup_insert_self]
    · intro info' hinfo'
      cases hinfo'

/-- Effects of resolvePackageTypes: only marks flags, extends the packages
table by at most a fresh empty entry, registers `p`, and resolves every type
registered under `p`. -/
theorem resolvePackageTypesH_effects (n : Nat) (st : RegStateH) (p : String)
    (st' : RegStateH) (heq : resolvePackageTypesH n st p = some st') :
    heapStep st.heap st'.heap ∧
    (∃ tail, st'.packages = st.packages ++ tail ∧
      ∀ e ∈ tail, e.2 = emptyPkgInfo) ∧
    (alLookup st'.packages p).isSome = true ∧
    (∀ info, alLookup st.packages p = some info →
      ∀ t ∈ info.types, resolvedOk st'.heap t.2) := by
  have hset := setCurrentPackageH_effects st p
  rw [resolvePackageTypesH] at heq
  cases hl : alLookup (setCurrentPackageH st p).packages p with
  | none =>
    rw [hl] at hset
    simp at hset
  | some info1 =>
    rw [hl] at heq
    simp only at heq
    cases hres : resolveTypeListH n (setCurrentPackageH st p).heap info1.types with
    | none => rw [hres] at heq; cases heq
    | some h1 =>
      rw [hres] at heq
      simp only at heq
      cases heq
      have hle := resolveTypeListH_effects n info1.types _ h1 hres
      refine ⟨?_, ?_, ?_, ?_⟩
      · rw [hset.1] at hle
        exact hle.1
      · exact hset.2.1
      · exact hset.2.2.1
      · intro info hinfo t ht
        have hsame := hset.2.2.2 info hinfo
        rw [hsame.2] at hl
        cases hl
        exact hle.2 t ht

/-- All types registered under `q` are resolved in `st`'s heap. -/
def pkgResolvedIn (st : RegStateH) (q : String) : Prop :=
  ∀ info, alLookup st.packages q = some info →
    ∀ t ∈ info.types, resolvedOk st.heap t.2

/-- Extension of the packages table by fresh empty entries (the only way the
resolver run grows it). -/
def pkgExtends (st st' : RegStateH) : Prop :=
  ∃ tail, st'.packages = st.packages ++ tail ∧ ∀ e ∈ tail, e.2 = emptyPkgInfo

theorem pkgExtends_refl (st : RegStateH) : pkgExtends st st := ⟨[], by simp⟩

theorem pkgExtends_trans {s1 s2 s3 : RegStateH} (a : pkgExtends s1 s2)
    (b : pkgExtends s2 s3) : pkgExtends s1 s3 := by
  obtain ⟨t1, h1, e1⟩ := a
  obtain ⟨t2, h2, e2⟩ := b
  refine ⟨t1 ++ t2, by rw [h2, h1, List.append_assoc], ?_⟩
  intro e he
  rcases List.mem_append.mp he with he | he
  · exact e1 e he
  · exact e2 e he

theorem pkgExtends_lookup {st st' : RegStateH} (h : pkgExtends st st')
    {q : String} {info : PkgInfoH} (hl : alLookup st.packages q = some info) :
    alLookup st'.packages q = some info := by
  obtain ⟨tail, ht, _⟩ := h
  rw [ht]
  exact alLookup_append_left tail hl

theorem pkgExtends_isSome {st st' : RegStateH} (h : pkgExtends st st')
    {q : String} (hl : (alLookup st.packages q).isSome = true) :
    (alLookup st'.packages q).isSome = true := by
  cases hlo : alLookup st.packages q with
  | none => rw [hlo] at hl; simp at hl
  | some info => rw [pkgExtends_lookup h hlo]; rfl

theorem pkgResolvedIn_mono {st st' : RegStateH} {q : String}
    (hstep : heapStep st.heap st'.heap) (hpkg : pkgExtends st st')
    (h : pkgResolvedIn st q) : pkgResolvedIn st' q := by
  intro info hl t ht
  obtain ⟨tail, htail, hemp⟩ := hpkg
  rw [htail] at hl
  cases hlo : alLookup st.packages q with
  | some i =>
    rw [alLookup_append_left tail hlo] at hl
    cases hl
    exact resolvedOk_mono hstep (h _ hlo t ht)
  | none =>
    rw [alLookup_append_right tail hlo] at hl
    have := hemp _ (alLookup_mem hl)
    simp only at this
    rw [this] at ht
    simp [emptyPkgInfo] at ht

/-- Invariant of the resolved-set during ResolvePackages: every member
package has its types resolved, is registered, and has all its dependencies
already in the set. -/
def goodRes (deps : List (String × List String)) (st : RegStateH)
    (res : List String) : Prop :=
  ∀ q ∈ res, pkgResolvedIn st q ∧ (alLookup st.packages q).isSome = true ∧
    ∀ d ∈ (alLookup deps q).getD [], d ∈ res

theorem goodRes_mono {deps : List (String × List String)} {st st' : RegStateH}
    {res res' : List String} (hstep : heapStep st.heap st'.heap)
    (hpkg : pkgExtends st st') (hsub : ∀ q ∈ res, q ∈ res')
    (hres' : ∀ q ∈ res', q ∈ res) (h : goodRes deps st res) :
    goodRes deps st' res' := by
  intro q hq
  obtain ⟨h1, h2, h3⟩ := h q (hres' q hq)
  exact ⟨pkgResolvedIn_mono hstep hpkg h1, pkgExtends_isSome hpkg h2,
    fun d hd => hsub d (h3 d hd)⟩

/-- Joint effects of resolvePackageDependencies and its dependency loop:
preserving the resolved-set invariant, a successful run only marks flags,
only appends fresh empty packages, grows the resolved set, and ends with the
argument package resolved and in the set. -/
theorem resolvePkgDepsH_effects :
    ∀ (n : Nat) (deps : List (String × List String)),
      (∀ (st : RegStateH) (res : List String) (p : String) st' res',
        resolvePkgDepsH n deps st res p = some (st', res') →
        goodRes deps st res →
        heapStep st.heap st'.heap ∧ pkgExtends st st' ∧
          (∀ q ∈ res, q ∈ res') ∧ p ∈ res' ∧ goodRes deps st' res') ∧
      (∀ (st : RegStateH) (res : List String) (ds : List String) st' res',
        resolveDepListH n deps st res ds = some (st', res') →
        goodRes deps st res →
        heapStep st.heap st'.heap ∧ pkgExtends st st' ∧
          (∀ q ∈ res, q ∈ res') ∧ (∀ d ∈ ds, d ∈ res') ∧ goodRes deps st' res') := by
  intro n
  induction n with
  | zero =>
    intro deps
    constructor
    · intro st res p st' res' heq
      rw [resolvePkgDepsH] at heq
      cases heq
    · intro st res ds
      induction ds with
      | nil =>
        intro st' res' heq hgood
        rw [resolveDepListH] at heq
        cases heq
        exact ⟨heapStep_refl _, pkgExtends_refl _, fun q hq => hq, by simp, hgood⟩
      | cons d rest ihd =>
        intro st' res' heq _
        rw [resolveDepListH] at heq
        rw [resolvePkgDepsH] at heq
        simp only at heq
        cases heq
  | succ n ih =>
    intro deps
    have depCase := (ih deps).2
    have pkgCase : ∀ (st : RegStateH) (res : List String) (p : String) st' res',
        resolvePkgDepsH (n + 1) deps st res p = some (st', res') →
        goodRes deps st res →
        heapStep st.heap st'.heap ∧ pkgExtends st st' ∧
          (∀ q ∈ res, q ∈ res') ∧ p ∈ res' ∧ goodRes deps st' res' := by
      intro st res p st' res' heq hgood
      rw [resolvePkgDepsH] at heq
      by_cases hmem : p ∈ res
      · rw [if_pos hmem] at heq
        cases heq
        exact ⟨heapStep_refl _, pkgExtends_refl _, fun q hq => hq, hmem, hgood⟩
      · rw [if_neg hmem] at heq
        cases hdl : resolveDepListH n deps st res ((alLookup deps p).getD []) with
        | none => rw [hdl] at heq; cases heq
        | some pair =>
          obtain ⟨st1, res1⟩ := pair
          rw [hdl] at heq
          simp only at heq
          have e1 := depCase st res _ st1 res1 hdl hgood
          cases hpt : resolvePackageTypesH (n + 1) st1 p with
          | none => rw [hpt] at heq; cases heq
          | some st2 =>
            rw [hpt] at heq
            simp only at heq
            cases heq
            have e2 := resolvePackageTypesH_effects (n + 1) st1 p st' hpt
            have hstep : heapStep st.heap st'.heap := heapStep_trans e1.1 e2.1
            have hext : pkgExtends st st' :=
              pkgExtends_trans e1.2.1 ⟨_, e2.2.1.choose_spec.1, e2.2.1.choose_spec.2⟩
            have hresolved_p : pkgResolvedIn st' p := by
              intro info hl t ht
              obtain ⟨tail, htail, hemp⟩ := e2.2.1
              rw [htail] at hl
              cases hlo : alLookup st1.packages p with
              | some i =>
                rw [alLookup_append_left tail hlo] at hl
                cases hl
                exact e2.2.2.2 _ hlo t ht
              | none =>
                rw [alLookup_append_right tail hlo] at hl
                have := hemp _ (alLookup_mem hl)
                simp only at this
                rw [this] at ht
                simp [emptyPkgInfo] at ht
            refine ⟨hstep, hext, ?_, ?_, ?_⟩
            · intro q hq
              exact List.mem_append.mpr (Or.inl (e1.2.2.1 q hq))
            · exact List.mem_append.mpr (Or.inr (by simp))
            · intro q hq
              rcases List.mem_append.mp hq with hq | hq
              · obtain ⟨g1, g2, g3⟩ := e1.2.2.2.2 q hq
                refine ⟨pkgResolvedIn_mono e2.1
                    ⟨_, e2.2.1.choose_spec.1, e2.2.1.choose_spec.2⟩ g1,
                  pkgExtends_isSome
                    ⟨_, e2.2.1.choose_spec.1, e2.2.1.choose_spec.2⟩ g2, ?_⟩
                intro d hd
                exact List.mem_append.mpr (Or.inl (g3 d hd))
              · simp only [List.mem_singleton] at hq
                subst hq
                refine ⟨hresolved_p, e2.2.2.1, ?_⟩
                intro d hd
                exact List.mem_append.mpr (Or.inl (e1.2.2.2.1 d hd))
    refine ⟨pkgCase, ?_⟩
    intro st res ds
    induction ds generalizing st res with
    | nil =>
      intro st' res' heq hgood
      rw [resolveDepListH] at heq
      cases heq
      exact ⟨heapStep_refl _, pkgExtends_refl _, fun q hq => hq, by simp, hgood⟩
    | cons d rest ihd =>
      intro st' res' heq hgood
      rw [resolveDepListH] at heq
      cases hd : resolvePkgDepsH (n + 1) deps st res d with
      | none => rw [hd] at heq; cases heq
      | some pair =>
        obtain ⟨st1, res1⟩ := pair
        rw [hd] at heq
        simp only at heq
        have e1 := pkgCase st res d st1 res1 hd hgood
        have e2 := ihd st1 res1 st' res' heq e1.2.2.2.2
        refine ⟨heapStep_trans e1.1 e2.1, pkgExtends_trans e1.2.1 e2.2.1,
          fun q hq => e2.2.2.1 q (e1.2.2.1 q hq), ?_, e2.2.2.2.2⟩
        intro d' hd'
        rcases List.mem_cons.mp hd' with hd' | hd'
        · subst hd'
          exact e2.2.2.1 d' e1.2.2.2.1
        · exact e2.2.2.2.1 d' hd'

/-- Effects of the top-level loop of ResolvePackages over the root packages. -/
theorem resolveRootsH_effects (n : Nat) (deps : List (String × List String)) :
    ∀ (roots : List String) (st : RegStateH) (res : List String) st' res',
      resolveRootsH n deps st res roots = some (st', res') →
      goodRes deps st res →
      heapStep st.heap st'.heap ∧ pkgExtends st st' ∧
        (∀ q ∈ res, q ∈ res') ∧ (∀ p ∈ roots, p ∈ res') ∧
        goodRes deps st' res' := by
  intro roots
  induction roots with
  | nil =>
    intro st res st' res' heq hgood
    rw [resolveRootsH] at heq
    cases heq
    exact ⟨heapStep_refl _, pkgExtends_refl _, fun q hq => hq, by simp, hgood⟩
  | cons p rest ih =>
    intro st res st' res' heq hgood
    rw [resolveRootsH] at heq
    cases hp : resolvePkgDepsH n deps st res p with
    | none => rw [hp] at heq; cases heq
    | some pair =>
      obtain ⟨st1, res1⟩ := pair
      rw [hp] at heq
      simp only at heq
      have e1 := (resolvePkgDepsH_effects n deps).1 st res p st1 res1 hp hgood
      have e2 := ih st1 res1 st' res' heq e1.2.2.2.2
      refine ⟨heapStep_trans e1.1 e2.1, pkgExtends_trans e1.2.1 e2.2.1,
        fun q hq => e2.2.2.1 q (e1.2.2.1 q hq), ?_, e2.2.2.2.2⟩
      intro p' hp'
      rcases List.mem_cons.mp hp' with hp' | hp'
      · subst hp'
        exact e2.2.2.1 p' e1.2.2.2.1
      · exact e2.2.2.2.1 p' hp'

/-- Summary effects of ResolvePackages: only flags are marked, packages only
extended by empties, and every originally registered package ends up in a
resolved set satisfying the invariant. -/
theorem resolvePackagesH_effects (n : Nat) (st st' : RegStateH)
    (heq : resolvePackagesH n st = some st') :
    heapStep st.heap st'.heap ∧ pkgExtends st st' ∧
      ∃ res, goodRes (buildPackageDependenciesH st.packages) st' res ∧
        ∀ p ∈ st.packages.map Prod.fst, p ∈ res := by
  rw [resolvePackagesH] at heq
  cases hr : resolveRootsH n (buildPackageDependenciesH st.packages) st []
      (st.packages.map Prod.fst) with
  | none => rw [hr] at heq; cases heq
  | some pair =>
    obtain ⟨st1, res1⟩ := pair
    rw [hr] at heq
    simp only at heq
    cases heq
    have e := resolveRootsH_effects n _ _ st [] st' res1 hr (by simp [goodRes])
    exact ⟨e.1, e.2.1, res1, e.2.2.2.2, e.2.2.2.1⟩

/-- Registry holding one package `p` with one struct `S` whose only field
has a nil Type (a placeholder whose type was never found). -/
def stNilField : RegStateH :=
  { packages := [("p", ⟨[("S", 0)], []⟩)], current := "",
    heap := [(0, { name := "S", kind := .kindStruct,
                   fields := [{ name := "F", type := none, jsonName := "",
                                omitempty := false, isPointer := false }],
                   elementType := none, keyType := none, valueType := none,
                   pkg := "p", basicType := "", isResolved := false })] }

/-- Evaluation of ResolvePackages on `stNilField` (helper shared by the C2
theorems). -/
theorem stNilField_run :
    resolvePackagesH 3 stNilField =
      some { packages := [("p", ⟨[("S", 0)], []⟩)], current := "p",
             heap := [(0, { name := "S", kind := .kindStruct,
                            fields := [{ name := "F", type := none,
                                         jsonName := "", omitempty := false,
                                         isPointer := false }],
                            elementType := none, keyType := none,
                            valueType := none, pkg := "p", basicType := "",
                            isResolved := true })] } := by
  simp [resolvePackagesH, buildPackageDependenciesH, resolveRootsH,
    resolvePkgDepsH, resolveDepListH, resolvePackageTypesH,
    setCurrentPackageH, registerPackageH, resolveTypeListH, resolveTypeH,
    resolveFieldsH, hLookup, hUpdate, alLookup, alInsert, stNilField,
    goContainsChar, emptyPkgInfo]

/-- Claim C2: FALSIFIED in its second half — after ResolvePackages returns,
a struct field whose type could not be found anywhere is left with a nil
Type pointer: resolveType skips nil-typed fields (`continue`) and the code
never synthesizes an Unknown node (the TypeKind enumeration has no Unknown
member at all).  The type itself is still marked IsResolved = true. -/
theorem c2_counterexample_nil_field_stays_nil :
    resolvePackagesH 3 stNilField =
      some { packages := [("p", ⟨[("S", 0)], []⟩)], current := "p",
             heap := [(0, { name := "S", kind := .kindStruct,
                            fields := [{ name := "F", type := none,
                                         jsonName := "", omitempty := false,
                                         isPointer := false }],
                            elementType := none, keyType := none,
                            valueType := none, pkg := "p", basicType := "",
                            isResolved := true })] } := stNilField_run

/-- Claim C2, amended: after `ResolvePackages` returns, every registered
TypeDefinition has IsResolved = true; however, struct fields whose type
could not be found are left with a nil Type (no Unknown node is synthesized
— the resolver run changes nothing about any node except its IsResolved
flag). -/
theorem c2_amended_all_marked_resolved_nil_fields_stay (n : Nat)
    (st st' : RegStateH) (heq : resolvePackagesH n st = some st') :
    (∀ p info, alLookup st.packages p = some info →
      ∀ t ∈ info.types, resolvedOk st'.heap t.2) ∧
    (∀ r node, hLookup st.heap r = some node →
      ∃ node', hLookup st'.heap r = some node' ∧
        node'.fields = node.fields ∧ node'.elementType = node.elementType ∧
        node'.keyType = node.keyType ∧ node'.valueType = node.valueType) := by
  obtain ⟨hstep, hext, res, hgood, hroots⟩ := resolvePackagesH_effects n st st' heq
  constructor
  · intro p info hl t ht
    have hp : p ∈ st.packages.map Prod.fst :=
      List.mem_map.mpr ⟨(p, info), alLookup_mem hl, rfl⟩
    exact (hgood p (hroots p hp)).1 info (pkgExtends_lookup hext hl) t ht
  · intro r node hn
    obtain ⟨node', hn', hcase⟩ := heapStep_content hstep hn
    refine ⟨node', hn', ?_⟩
    rcases hcase with rfl | rfl <;> simp

/-- Witness for c2_amended_all_marked_resolved_nil_fields_stay at the
concrete one-package registry with the nil-typed field. -/
theorem c2_amended_all_marked_resolved_nil_fields_stay_witness :
    (∃ st', resolvePackagesH 3 stNilField = some st') ∧
    (∀ p info, alLookup stNilField.packages p = some info →
      ∀ t ∈ info.types,
        resolvedOk
          { packages := [("p", ⟨[("S", 0)], []⟩)], current := "p",
            heap := [(0, { name := "S", kind := .kindStruct,
                           fields := [{ name := "F", type := none,
                                        jsonName := "", omitempty := false,
                                        isPointer := false }],
                           elementType := none, keyType := none,
                           valueType := none, pkg := "p", basicType := "",
                           isResolved := true })] : RegStateH }.heap t.2) := by
  constructor
  · exact ⟨_, stNilField_run⟩
  · exact (c2_amended_all_marked_resolved_nil_fields_stay 3 stNilField _
      stNilField_run).1

/-! Claim C8: idempotence of resolution and of schema generation. -/

/-- A nil-schema result leaves the memo untouched (nil only arises through
pointer chains, which never store). -/
theorem generateSchemaT_none_memo_aux :
    ∀ (n : Nat) (td : TypeDefinition) (memo memo1 : SchemaMemo),
      sizeOf td ≤ n → generateSchemaT td memo = (none, memo1) → memo1 = memo := by
  intro n
  induction n with
  | zero =>
    intro td memo memo1 hle _
    exact absurd hle (by cases td; simp)
  | succ n ih =>
    intro td memo memo1 hle heq
    obtain ⟨nm, kind, fs, elem, kt, vt, pk, bt, rs⟩ := td
    cases kind with
    | kindStruct =>
      rw [generateSchemaT] at heq
      cases hmemo : alLookup memo (schemaKey (.mk nm .kindStruct fs elem kt vt pk bt rs)) with
      | some s => rw [hmemo] at heq; simp only at heq; cases heq
      | none =>
        rw [hmemo] at heq
        simp only at heq
        cases hgf : genFieldsT fs [] [] memo with
        | mk props rest =>
          rw [hgf] at heq
          simp at heq
    | kindArray =>
      cases elem with
      | none =>
        rw [generateSchemaT] at heq
        cases hmemo : alLookup memo (schemaKey (.mk nm .kindArray fs none kt vt pk bt rs)) with
        | some s => rw [hmemo] at heq; simp only at heq; cases heq
        | none =>
          rw [hmemo] at heq
          simp at heq
      | some e =>
        rw [generateSchemaT] at heq
        cases hmemo : alLookup memo (schemaKey (.mk nm .kindArray fs (some e) kt vt pk bt rs)) with
        | some s => rw [hmemo] at heq; simp only at heq; cases heq
        | none =>
          rw [hmemo] at heq
          simp only at heq
          cases hg : generateSchemaT e memo with
          | mk s1 m1 =>
            rw [hg] at heq
            simp at heq
    | kindMap =>
      cases vt with
      | none =>
        rw [generateSchemaT] at heq
        cases hmemo : alLookup memo (schemaKey (.mk nm .kindMap fs elem kt none pk bt rs)) with
        | some s => rw [hmemo] at heq; simp only at heq; cases heq
        | none =>
          rw [hmemo] at heq
          simp at heq
      | some v =>
        rw [generateSchemaT] at heq
        cases hmemo : alLookup memo (schemaKey (.mk nm .kindMap fs elem kt (some v) pk bt rs)) with
        | some s => rw [hmemo] at heq; simp only at heq; cases heq
        | none =>
          rw [hmemo] at heq
          simp only at heq
          cases hg : generateSchemaT v memo with
          | mk s1 m1 =>
            rw [hg] at heq
            simp at heq
    | kindBasic =>
      rw [generateSchemaT] at heq
      cases hmemo : alLookup memo (schemaKey (.mk nm .kindBasic fs elem kt vt pk bt rs)) with
      | some s => rw [hmemo] at heq; simp only at heq; cases heq
      | none =>
        rw [hmemo] at heq
        simp at heq
    | kindPointer =>
      cases elem with
      | none =>
        rw [generateSchemaT] at heq
        cases hmemo : alLookup memo (schemaKey (.mk nm .kindPointer fs none kt vt pk bt rs)) with
        | some s => rw [hmemo] at heq; simp only at heq; cases heq
        | none =>
          rw [hmemo] at heq
          simp only at heq
          exact (congrArg Prod.snd heq).symm
      | some e =>
        rw [generateSchemaT] at heq
        cases hmemo : alLookup memo (schemaKey (.mk nm .kindPointer fs (some e) kt vt pk bt rs)) with
        | some s => rw [hmemo] at heq; simp only at heq; cases heq
        | none =>
          rw [hmemo] at heq
          simp only at heq
          cases hg : generateSchemaT e memo with
          | mk s1 m1 =>
            rw [hg] at heq
            cases s1 with
            | some s => simp only at heq; cases heq
            | none =>
              simp only at heq
              have hm1 : m1 = memo := by
                refine ih e memo m1 ?_ hg
                have hlt : sizeOf e <
                    sizeOf (TypeDefinition.mk nm .kindPointer fs (some e) kt vt pk bt rs) := by
                  simp
                  omega
                omega
              cases heq
              exact hm1

/-- allResolvedReg: every registered type of every registered package is
already marked resolved. -/
def allResolvedReg (st : RegStateH) : Prop :=
  ∀ p info, alLookup st.packages p = some info →
    ∀ t ∈ info.types, resolvedOk st.heap t.2

/-- depsClosed: every (dot-containing) import path of every registered
package is itself a registered package. -/
def depsClosed (st : RegStateH) : Prop :=
  ∀ p info, alLookup st.packages p = some info →
    ∀ d ∈ (info.imports.map Prod.snd).filter (fun path => goContainsChar path '.'),
      (alLookup st.packages d).isSome = true

/-- Lookup in the built dependency graph. -/
theorem buildDeps_lookup (pkgs : List (String × PkgInfoH)) (q : String) :
    alLookup (buildPackageDependenciesH pkgs) q =
      (alLookup pkgs q).map
        (fun info => (info.imports.map Prod.snd).filter
          (fun path => goContainsChar path '.')) := by
  induction pkgs with
  | nil => simp [buildPackageDependenciesH, alLookup]
  | cons p rest ih =>
    obtain ⟨k0, info0⟩ := p
    by_cases h0 : k0 = q
    · subst h0
      simp [buildPackageDependenciesH, alLookup]
    · simp only [buildPackageDependenciesH, List.map_cons, alLookup,
        if_neg h0] at ih ⊢
      exact ih

/-- resolveType is a no-op on an already-resolved object. -/
theorem resolveTypeH_noop (n : Nat) (h : HeapH) (r : Ref) (h' : HeapH)
    (hres : resolvedOk h r) (heq : resolveTypeH n h r = some h') : h' = h := by
  obtain ⟨node, hn, hmark⟩ := hres
  cases n with
  | zero => rw [resolveTypeH] at heq; cases heq
  | succ n =>
    rw [resolveTypeH] at heq
    rw [hn] at heq
    simp only at heq
    rw [if_pos hmark] at heq
    cases heq
    rfl

/-- The type loop of resolvePackageTypes is a no-op when all listed types
are resolved. -/
theorem resolveTypeListH_noop (n : Nat) :
    ∀ (types : List (String × Ref)) (h h' : HeapH),
      (∀ t ∈ types, resolvedOk h t.2) →
      resolveTypeListH n h types = some h' → h' = h := by
  intro types
  induction types with
  | nil =>
    intro h h' _ heq
    rw [resolveTypeListH] at heq
    cases heq
    rfl
  | cons t rest ih =>
    intro h h' hall heq
    obtain ⟨nm, r⟩ := t
    rw [resolveTypeListH] at heq
    cases hr : resolveTypeH n h r with
    | none => rw [hr] at heq; cases heq
    | some h1 =>
      rw [hr] at heq
      simp only at heq
      have h1h : h1 = h :=
        resolveTypeH_noop n h r h1 (hall _ (List.mem_cons_self _ _)) hr
      rw [h1h] at heq
      exact ih h h' (fun t ht => hall t (List.mem_cons_of_mem _ ht)) heq

/-- resolvePackageTypes on a registered, fully resolved package only moves
the cursor. -/
theorem resolvePackageTypesH_noop (n : Nat) (st : RegStateH) (p : String)
    (st' : RegStateH) (info : PkgInfoH)
    (hl : alLookup st.packages p = some info)
    (hres : ∀ t ∈ info.types, resolvedOk st.heap t.2)
    (heq : resolvePackageTypesH n st p = some st') :
    st' = { st with current := p } := by
  rw [resolvePackageTypesH] at heq
  have hst : setCurrentPackageH st p = { st with current := p } := by
    simp [setCurrentPackageH, registerPackageH, hl]
  rw [hst] at heq
  simp only at heq
  rw [hl] at heq
  simp only at heq
  cases hres1 : resolveTypeListH n st.heap info.types with
  | none => rw [hres1] at heq; cases heq
  | some h1 =>
    rw [hres1] at heq
    simp only at heq
    cases heq
    have := resolveTypeListH_noop n info.types st.heap h1 hres hres1
    subst this
    rfl

/-- resolvePackageDependencies over an already fully resolved, dependency
closed registry never changes the packages table or the heap (only the
cursor moves). -/
theorem resolvePkgDepsH_noop :
    ∀ (n : Nat) (st0 : RegStateH),
      allResolvedReg st0 → depsClosed st0 →
      (∀ (st : RegStateH) (res : List String) (p : String) st' res',
        st.packages = st0.packages → st.heap = st0.heap →
        (alLookup st0.packages p).isSome = true →
        resolvePkgDepsH n (buildPackageDependenciesH st0.packages) st res p =
          some (st', res') →
        st'.packages = st0.packages ∧ st'.heap = st0.heap) ∧
      (∀ (st : RegStateH) (res : List String) (ds : List String) st' res',
        st.packages = st0.packages → st.heap = st0.heap →
        (∀ d ∈ ds, (alLookup st0.packages d).isSome = true) →
        resolveDepListH n (buildPackageDependenciesH st0.packages) st res ds =
          some (st', res') →
        st'.packages = st0.packages ∧ st'.heap = st0.heap) := by
  intro n
  induction n with
  | zero =>
    intro st0 har hdc
    constructor
    · intro st res p st' res' _ _ _ heq
      rw [resolvePkgDepsH] at heq
      cases heq
    · intro st res ds
      induction ds generalizing st res with
      | nil =>
        intro st' res' hpk hhp _ heq
        rw [resolveDepListH] at heq
        cases heq
        exact ⟨hpk, hhp⟩
      | cons d rest ihd =>
        intro st' res' _ _ _ heq
        rw [resolveDepListH] at heq
        rw [resolvePkgDepsH] at heq
        simp only at heq
        cases heq
  | succ n ih =>
    intro st0 har hdc
    have pkgCase : ∀ (st : RegStateH) (res : List String) (p : String) st' res',
        st.packages = st0.packages → st.heap = st0.heap →
        (alLookup st0.packages p).isSome = true →
        resolvePkgDepsH (n + 1) (buildPackageDependenciesH st0.packages) st res p =
          some (st', res') →
        st'.packages = st0.packages ∧ st'.heap = st0.heap := by
      intro st res p st' res' hpk hhp hreg heq
      rw [resolvePkgDepsH] at heq
      by_cases hmem : p ∈ res
      · rw [if_pos hmem] at heq
        cases heq
        exact ⟨hpk, hhp⟩
      · rw [if_neg hmem] at heq
        cases hinfo : alLookup st0.packages p with
        | none => rw [hinfo] at hreg; simp at hreg
        | some info =>
          have hds : (alLookup (buildPackageDependenciesH st0.packages) p).getD [] =
              (info.imports.map Prod.snd).filter
                (fun path => goContainsChar path '.') := by
            rw [buildDeps_lookup, hinfo]
            rfl
          cases hdl : resolveDepListH n (buildPackageDependenciesH st0.packages)
              st res ((alLookup (buildPackageDependenciesH st0.packages) p).getD []) with
          | none => rw [hdl] at heq; cases heq
          | some pair =>
            obtain ⟨st1, res1⟩ := pair
            rw [hdl] at heq
            simp only at heq
            rw [hds] at hdl
            have e1 := ((ih st0 har hdc).2) st res _ st1 res1 hpk hhp
              (fun d hd => hdc p info hinfo d hd) hdl
            cases hpt : resolvePackageTypesH (n + 1) st1 p with
            | none => rw [hpt] at heq; cases heq
            | some st2 =>
              rw [hpt] at heq
              simp only at heq
              cases heq
              have hl1 : alLookup st1.packages p = some info := by
                rw [e1.1]
                exact hinfo
              have hres1 : ∀ t ∈ info.types, resolvedOk st1.heap t.2 := by
                rw [e1.2]
                exact har p info hinfo
              have := resolvePackageTypesH_noop (n + 1) st1 p st' info hl1 hres1 hpt
              rw [this]
              exact ⟨e1.1, e1.2⟩
    refine ⟨pkgCase, ?_⟩
    intro st res ds
    induction ds generalizing st res with
    | nil =>
      intro st' res' hpk hhp _ heq
      rw [resolveDepListH] at heq
      cases heq
      exact ⟨hpk, hhp⟩
    | cons d rest ihd =>
      intro st' res' hpk hhp hall heq
      rw [resolveDepListH] at heq
      cases hd : resolvePkgDepsH (n + 1) (buildPackageDependenciesH st0.packages)
          st res d with
      | none => rw [hd] at heq; cases heq
      | some pair =>
        obtain ⟨st1, res1⟩ := pair
        rw [hd] at heq
        simp only at heq
        have e1 := pkgCase st res d st1 res1 hpk hhp
          (hall d (List.mem_cons_self _ _)) hd
        exact ihd st1 res1 st' res' e1.1 e1.2
          (fun d' hd' => hall d' (List.mem_cons_of_mem _ hd')) heq

/-- The top-level root loop is likewise a no-op on such a registry. -/
theorem resolveRootsH_noop (n : Nat) (st0 : RegStateH)
    (har : allResolvedReg st0) (hdc : depsClosed st0) :
    ∀ (roots : List String) (st : RegStateH) (res : List String) st' res',
      st.packages = st0.packages → st.heap = st0.heap →
      (∀ p ∈ roots, (alLookup st0.packages p).isSome = true) →
      resolveRootsH n (buildPackageDependenciesH st0.packages) st res roots =
        some (st', res') →
      st'.packages = st0.packages ∧ st'.heap = st0.heap := by
  intro roots
  induction roots with
  | nil =>
    intro st res st' res' hpk hhp _ heq
    rw [resolveRootsH] at heq
    cases heq
    exact ⟨hpk, hhp⟩
  | cons p rest ih =>
    intro st res st' res' hpk hhp hall heq
    rw [resolveRootsH] at heq
    cases hp : resolvePkgDepsH n (buildPackageDependenciesH st0.packages)
        st res p with
    | none => rw [hp] at heq; cases heq
    | some pair =>
      obtain ⟨st1, res1⟩ := pair
      rw [hp] at heq
      simp only at heq
      have e1 := (resolvePkgDepsH_noop n st0 har hdc).1 st res p st1 res1
        hpk hhp (hall p (List.mem_cons_self _ _)) hp
      exact ih st1 res1 st' res' e1.1 e1.2
        (fun p' hp' => hall p' (List.mem_cons_of_mem _ hp')) heq

/-- ResolvePackages over an already fully resolved, dependency-closed
registry changes neither the packages table nor the heap. -/
theorem resolvePackagesH_noop (m : Nat) (st st2 : RegStateH)
    (har : allResolvedReg st) (hdc : depsClosed st)
    (heq : resolvePackagesH m st = some st2) :
    st2.packages = st.packages ∧ st2.heap = st.heap := by
  rw [resolvePackagesH] at heq
  cases hr : resolveRootsH m (buildPackageDependenciesH st.packages) st []
      (st.packages.map Prod.fst) with
  | none => rw [hr] at heq; cases heq
  | some pair =>
    obtain ⟨st1, res1⟩ := pair
    rw [hr] at heq
    simp only at heq
    cases heq
    exact resolveRootsH_noop m st har hdc (st.packages.map Prod.fst) st []
      st2 res1 rfl rfl (fun p hp => alLookup_isSome_of_mem_fst hp) hr

/-- After a successful ResolvePackages run the registry is fully resolved
and dependency-closed. -/
theorem resolvePackagesH_post (n : Nat) (st st' : RegStateH)
    (heq : resolvePackagesH n st = some st') :
    allResolvedReg st' ∧ depsClosed st' := by
  obtain ⟨hstep, hext, res, hgood, hroots⟩ := resolvePackagesH_effects n st st' heq
  obtain ⟨tail, htail, hemp⟩ := hext
  constructor
  · intro p info hl t ht
    cases hlo : alLookup st.packages p with
    | some info0 =>
      rw [pkgExtends_lookup ⟨tail, htail, hemp⟩ hlo] at hl
      cases hl
      have hp : p ∈ st.packages.map Prod.fst :=
        List.mem_map.mpr ⟨(p, info), alLookup_mem hlo, rfl⟩
      exact (hgood p (hroots p hp)).1 info
        (pkgExtends_lookup ⟨tail, htail, hemp⟩ hlo) t ht
    | none =>
      rw [htail, alLookup_append_right tail hlo] at hl
      have := hemp _ (alLookup_mem hl)
      simp only at this
      rw [this] at ht
      simp [emptyPkgInfo] at ht
  · intro p info hl d hd
    cases hlo : alLookup st.packages p with
    | some info0 =>
      rw [pkgExtends_lookup ⟨tail, htail, hemp⟩ hlo] at hl
      cases hl
      have hp : p ∈ st.packages.map Prod.fst :=
        List.mem_map.mpr ⟨(p, info), alLookup_mem hlo, rfl⟩
      have hpres := hroots p hp
      have hdres : d ∈ res := by
        refine (hgood p hpres).2.2 d ?_
        rw [buildDeps_lookup, hlo]
        exact hd
      exact (hgood d hdres).2.1
    | none =>
      rw [htail, alLookup_append_right tail hlo] at hl
      have := hemp _ (alLookup_mem hl)
      simp only at this
      rw [this] at hd
      simp [emptyPkgInfo] at hd

/-- Claim C8: CONFIRMED — rerunning ResolvePackages on the result of a
successful run changes neither the types (the heap) nor the packages table
(already-resolved types are skipped; only the CurrentPackage cursor is
exercised), and a second GenerateSchema call from the memo state a first
call produced returns the identical memoized schema and leaves the memo
unchanged — hence no duplicate required-list entries, and example output
(generateExample, a pure function of the type) cannot grow. -/
theorem c8_resolution_and_schema_generation_idempotent :
    (∀ (n m : Nat) (st st' st'' : RegStateH),
      resolvePackagesH n st = some st' → resolvePackagesH m st' = some st'' →
      st''.heap = st'.heap ∧ st''.packages = st'.packages) ∧
    (∀ (td : TypeDefinition) (memo : SchemaMemo) (s : Option JSONSchema)
      (memo' : SchemaMemo), generateSchemaT td memo = (s, memo') →
      generateSchemaT td memo' = (s, memo')) := by
  constructor
  · intro n m st st' st'' h1 h2
    obtain ⟨har, hdc⟩ := resolvePackagesH_post n st st' h1
    obtain ⟨hp, hh⟩ := resolvePackagesH_noop m st' st'' har hdc h2
    exact ⟨hh, hp⟩
  · intro td memo s memo' heq
    obtain ⟨nm, kind, fs, elem, kt, vt, pk, bt, rs⟩ := td
    cases kind with
    | kindStruct =>
      rw [generateSchemaT] at heq
      cases hmemo : alLookup memo (schemaKey (.mk nm .kindStruct fs elem kt vt pk bt rs)) with
      | some s0 =>
        rw [hmemo] at heq
        simp only at heq
        cases heq
        rw [generateSchemaT]
        simp [hmemo]
      | none =>
        rw [hmemo] at heq
        simp only at heq
        cases hgf : genFieldsT fs [] [] memo with
        | mk props rest =>
          rw [hgf] at heq
          simp only at heq
          cases heq
          rw [generateSchemaT]
          simp [alLookup_insert_self]
    | kindArray =>
      cases elem with
      | none =>
        rw [generateSchemaT] at heq
        cases hmemo : alLookup memo (schemaKey (.mk nm .kindArray fs none kt vt pk bt rs)) with
        | some s0 =>
          rw [hmemo] at heq
          simp only at heq
          cases heq
          rw [generateSchemaT]
          simp [hmemo]
        | none =>
          rw [hmemo] at heq
          simp only at heq
          cases heq
          rw [generateSchemaT]
          simp [alLookup_insert_self]
      | some e =>
        rw [generateSchemaT] at heq
        cases hmemo : alLookup memo (schemaKey (.mk nm .kindArray fs (some e) kt vt pk bt rs)) with
        | some s0 =>
          rw [hmemo] at heq
          simp only at heq
          cases heq
          rw [generateSchemaT]
          simp [hmemo]
        | none =>
          rw [hmemo] at heq
          simp only at heq
          cases hg : generateSchemaT e memo with
          | mk s1 m1 =>
            rw [hg] at heq
            simp only at heq
            cases heq
            rw [generateSchemaT]
            simp [alLookup_insert_self]
    | kindMap =>
      cases vt with
      | none =>
        rw [generateSchemaT] at heq
        cases hmemo : alLookup memo (schemaKey (.mk nm .kindMap fs elem kt none pk bt rs)) with
        | some s0 =>
          rw [hmemo] at heq
          simp only at heq
          cases heq
          rw [generateSchemaT]
          simp [hmemo]
        | none =>
          rw [hmemo] at heq
          simp only at heq
          cases heq
          rw [generateSchemaT]
          simp [alLookup_insert_self]
      | some v =>
        rw [generateSchemaT] at heq
        cases hmemo : alLookup memo (schemaKey (.mk nm .kindMap fs elem kt (some v) pk bt rs)) with
        | some s0 =>
          rw [hmemo] at heq
          simp only at heq
          cases heq
          rw [generateSchemaT]
          simp [hmemo]
        | none =>
          rw [hmemo] at heq
          simp only at heq
          cases hg : generateSchemaT v memo with
          | mk s1 m1 =>
            rw [hg] at heq
            simp only at heq
            cases heq
            rw [generateSchemaT]
            simp [alLookup_insert_self]
    | kindBasic =>
      rw [generateSchemaT] at heq
      cases hmemo : alLookup memo (schemaKey (.mk nm .kindBasic fs elem kt vt pk bt rs)) with
      | some s0 =>
        rw [hmemo] at heq
        simp only at heq
        cases heq
        rw [generateSchemaT]
        simp [hmemo]
      | none =>
        rw [hmemo] at heq
        simp only at heq
        cases heq
        rw [generateSchemaT]
        simp [alLookup_insert_self]
    | kindPointer =>
      cases elem with
      | none =>
        rw [generateSchemaT] at heq
        cases hmemo : alLookup memo (schemaKey (.mk nm .kindPointer fs none kt vt pk bt rs)) with
        | some s0 =>
          rw [hmemo] at heq
          simp only at heq
          cases heq
          rw [generateSchemaT]
          simp [hmemo]
        | none =>
          rw [hmemo] at heq
          simp only at heq
          cases heq
          rw [generateSchemaT]
          simp [hmemo]
      | some e =>
        rw [generateSchemaT] at heq
        cases hmemo : alLookup memo (schemaKey (.mk nm .kindPointer fs (some e) kt vt pk bt rs)) with
        | some s0 =>
          rw [hmemo] at heq
          simp only at heq
          cases heq
          rw [generateSchemaT]
          simp [hmemo]
        | none =>
          rw [hmemo] at heq
          simp only at heq
          cases hg : generateSchemaT e memo with
          | mk s1 m1 =>
            rw [hg] at heq
            cases s1 with
            | some se =>
              simp only at heq
              cases heq
              rw [generateSchemaT]
              simp [alLookup_insert_self]
            | none =>
              simp only at heq
              have hm1 : m1 = memo :=
                generateSchemaT_none_memo_aux (sizeOf e) e memo m1 le_rfl hg
              cases heq
              rw [hm1]
              rw [generateSchemaT]
              rw [hmemo]
              simp only
              rw [hg]
              simp only
              rw [hm1]

/-- Evaluation of GenerateSchema on the basic `string` type from an empty
memo (helper for the C8 witness). -/
theorem tdString_gen :
    generateSchemaT tdString [] =
      (some (.mk "string" "" "" none [] [] none),
        [(".string", .mk "string" "" "" none [] [] none)]) := by
  simp [generateSchemaT, tdString, schemaKey, alLookup, alInsert,
    generateBasicSchema, TypeDefinition.pkg, TypeDefinition.name,
    TypeDefinition.basicType]

/-- Witness for c8_resolution_and_schema_generation_idempotent: the
one-package registry (after its first run) and the `string` schema memo. -/
theorem c8_resolution_and_schema_generation_idempotent_witness :
    (∃ st' st'', resolvePackagesH 3 stNilField = some st' ∧
      resolvePackagesH 3 st' = some st'' ∧
      st''.heap = st'.heap ∧ st''.packages = st'.packages) ∧
    generateSchemaT tdString
        [(".string", .mk "string" "" "" none [] [] none)] =
      (some (.mk "string" "" "" none [] [] none),
        [(".string", .mk "string" "" "" none [] [] none)]) := by
  have hrun2 : resolvePackagesH 3
      ({ packages := [("p", ⟨[("S", 0)], []⟩)], current := "p",
         heap := [(0, { name := "S", kind := .kindStruct,
                        fields := [{ name := "F", type := none,
                                     jsonName := "", omitempty := false,
                                     isPointer := false }],
                        elementType := none, keyType := none,
                        valueType := none, pkg := "p", basicType := "",
                        isResolved := true })] } : RegStateH) =
      some { packages := [("p", ⟨[("S", 0)], []⟩)], current := "p",
             heap := [(0, { name := "S", kind := .kindStruct,
                            fields := [{ name := "F", type := none,
                                         jsonName := "", omitempty := false,
                                         isPointer := false }],
                            elementType := none, keyType := none,
                            valueType := none, pkg := "p", basicType := "",
                            isResolved := true })] } := by
    simp [resolvePackagesH, buildPackageDependenciesH, resolveRootsH,
      resolvePkgDepsH, resolveDepListH, resolvePackageTypesH,
      setCurrentPackageH, registerPackageH, resolveTypeListH, resolveTypeH,
      resolveFieldsH, hLookup, hUpdate, alLookup, alInsert, goContainsChar,
      emptyPkgInfo]
  constructor
  · refine ⟨_, _, stNilField_run, hrun2, ?_⟩
    exact (c8_resolution_and_schema_generation_idempotent.1 3 3 stNilField
      _ _ stNilField_run hrun2)
  · exact c8_resolution_and_schema_generation_idempotent.2 tdString [] _ _
      tdString_gen

end GoAnalyzer
